import Mathlib

/-!
Verification of the rhythm-game engine in src/client/game/App.tsx.

The embedding below mirrors the source file:
* times are JavaScript millisecond timestamps, modelled as integers;
* sizes / growth fractions are JavaScript numbers produced by division,
  modelled as rationals (all divisions in the source have nonzero
  denominators in reachable states);
* the per-frame animation callback, the track scheduler, the judgment
  routine (handleCellPress) and the keyboard input handlers are each
  translated as pure functions on explicit state.
-/

namespace Janitor

/-- Rating of a hit, from the source type HitRating. -/
inductive HitRating where
  | ok
  | good
  | great
  | perfect
deriving DecidableEq, Repr

/-- Resolution kind stored in Circle.hitStatus (the non-null values). -/
inductive HitStatus where
  | correct
  | incorrect
  | miss
deriving DecidableEq, Repr

/-- A 2-D point, from the source type Position. Coordinates are
JavaScript numbers; the source only ever adds, subtracts and multiplies
them, so rationals embed the arithmetic exactly. -/
structure Position where
  x : ℚ
  y : ℚ
deriving DecidableEq, Repr

/-- The source builds a circle id as the string
`cellIndex-spawnTime-index`. Two distinct (cellIndex, spawnTime, index)
triples always render to distinct strings (each component is a decimal
integer, so the string parses back uniquely from the right), hence the
id is modelled as the triple itself: string equality coincides with
triple equality. -/
structure CircleId where
  cellIndex : ℤ
  spawnTime : ℤ
  index : ℕ
deriving DecidableEq, Repr

/-- From the source type Circle. -/
structure Circle where
  id : CircleId
  size : ℚ
  startTime : ℤ
  duration : ℤ
  hitStatus : Option HitStatus
  hitTime : Option ℤ
  hitRating : Option HitRating
  hitWindowStart : ℤ
  hitWindowEnd : ℤ
  perfectTime : ℤ
  cellIndex : ℤ
  spawnPosition : Position
  targetPosition : Position
  currentPosition : Position
deriving DecidableEq, Repr

/-- From the source type GridCell. -/
structure GridCell where
  index : ℕ
  circles : List Circle
deriving DecidableEq, Repr

/-- From the source type TrackItem. -/
structure TrackItem where
  cellIndex : ℤ
  spawnTime : ℤ
deriving DecidableEq, Repr

/-- GRID_SIZE in the source. -/
def GRID_SIZE : ℕ := 3

/-- CENTER_INDEX in the source. -/
def CENTER_INDEX : ℤ := 4

/-- GROWTH_DURATION in the source. -/
def GROWTH_DURATION : ℤ := 1000

/-- HIT_WINDOW_START in the source. -/
def HIT_WINDOW_START : ℤ := 150

/-- HIT_WINDOW_DURATION in the source. -/
def HIT_WINDOW_DURATION : ℤ := 200

/-- HIT_FEEDBACK_DURATION in the source. -/
def HIT_FEEDBACK_DURATION : ℤ := 100

/-- PERFECT_WINDOW in the source. -/
def PERFECT_WINDOW : ℤ := 25

/-- GREAT_WINDOW in the source. -/
def GREAT_WINDOW : ℤ := 50

/-- GOOD_WINDOW in the source. -/
def GOOD_WINDOW : ℤ := 100

/-- calculateHitRating from the source: rating from the absolute timing
difference to the perfect time. -/
def calculateHitRating (hitTime perfectTime : ℤ) : HitRating :=
  let timeDiff := |hitTime - perfectTime|
  if timeDiff ≤ PERFECT_WINDOW then .perfect
  else if timeDiff ≤ GREAT_WINDOW then .great
  else if timeDiff ≤ GOOD_WINDOW then .good
  else .ok

/-! ### Input resolver -/

/-- The set of currently held arrow keys. The source stores a JS Set of
key-name strings restricted to the four arrow keys; a 4-flag record is
an exact model, and equality of the source's sorted comma-joined
signatures coincides with equality of these records. -/
structure KeyState where
  up : Bool
  down : Bool
  left : Bool
  right : Bool
deriving DecidableEq, Repr

/-- The empty held-key set. -/
def KeyState.empty : KeyState := ⟨false, false, false, false⟩

/-- Whether the held-key set is empty (pressedKeys.size === 0). -/
def KeyState.isEmpty (ks : KeyState) : Bool :=
  !ks.up && !ks.down && !ks.left && !ks.right

/-- A keyboard key as seen by the handlers: one of the four arrows, or
any other key (which the handlers ignore via the ARROW_KEY_MAP guard). -/
inductive GKey where
  | up
  | down
  | left
  | right
  | other
deriving DecidableEq, Repr

/-- ARROW_KEY_MAP.hasOwnProperty(e.key). -/
def isArrow : GKey → Bool
  | .other => false
  | _ => true

/-- pressedKeys.add / pressedKeys.delete for one key. -/
def KeyState.set (ks : KeyState) (k : GKey) (b : Bool) : KeyState :=
  match k with
  | .up => { ks with up := b }
  | .down => { ks with down := b }
  | .left => { ks with left := b }
  | .right => { ks with right := b }
  | .other => ks

/-- getCellIndexFromKeys from the source: corner combinations first,
then single directions, else null. -/
def getCellIndexFromKeys (ks : KeyState) : Option ℕ :=
  if ks.up && ks.left then some 0
  else if ks.up && ks.right then some 2
  else if ks.down && ks.left then some 6
  else if ks.down && ks.right then some 8
  else if ks.up then some 1
  else if ks.down then some 7
  else if ks.left then some 3
  else if ks.right then some 5
  else none

/-- The mutable state of the keyboard effect: the held keys
(pressedKeys) and the signature recorded for debouncing
(lastTriggeredKeysRef). -/
structure InputState where
  pressed : KeyState
  last : KeyState
deriving DecidableEq, Repr

/-- The initial keyboard state: nothing held, no recorded signature. -/
def initInput : InputState := ⟨KeyState.empty, KeyState.empty⟩

/-- handleKeyDown from the source: returns the new state and the cell
index of the press it fires, if any. -/
def handleKeyDown (k : GKey) (s : InputState) : InputState × Option ℕ :=
  if isArrow k then
    let pressed := s.pressed.set k true
    match getCellIndexFromKeys pressed with
    | some targetIndex =>
        if pressed ≠ s.last then (⟨pressed, pressed⟩, some targetIndex)
        else (⟨pressed, s.last⟩, none)
    | none => (⟨pressed, s.last⟩, none)
  else (s, none)

/-- handleKeyUp from the source: never fires a press; clears the
recorded signature when the held set empties, otherwise refreshes it to
the current held set when it differs. -/
def handleKeyUp (k : GKey) (s : InputState) : InputState :=
  if isArrow k then
    let pressed := s.pressed.set k false
    if pressed.isEmpty then ⟨pressed, KeyState.empty⟩
    else if pressed ≠ s.last then ⟨pressed, pressed⟩
    else ⟨pressed, s.last⟩
  else s

/-! ### Scheduler (spawnFromTrack) -/

/-- The DOM geometry the spawner reads: the top-center spawn point
(window.innerWidth / 2, 0) and each cell's measured center (with the
screen-center fallback). The engine never inspects these values, it
only stores them. -/
structure SpawnEnv where
  spawnPos : Position
  cellPos : ℤ → Position

/-- The circle literal constructed by spawnFromTrack for a due, valid
track item at wall-clock time now. -/
def mkCircle (env : SpawnEnv) (item : TrackItem) (index : ℕ) (now : ℤ) : Circle :=
  { id := ⟨item.cellIndex, item.spawnTime, index⟩
    size := 0
    startTime := now
    duration := GROWTH_DURATION
    hitStatus := none
    hitTime := none
    hitRating := none
    hitWindowStart := now + GROWTH_DURATION - HIT_WINDOW_START
    hitWindowEnd := now + GROWTH_DURATION + HIT_WINDOW_DURATION
    perfectTime := now + GROWTH_DURATION
    cellIndex := item.cellIndex
    spawnPosition := env.spawnPos
    targetPosition := env.cellPos item.cellIndex
    currentPosition := env.spawnPos }

/-- The scheduler state: the set of already-fired track indices
(spawnedIndicesRef) and the grid (cells). -/
structure SchedState where
  fired : List ℕ
  cells : List GridCell
deriving DecidableEq, Repr

/-- The grid at track start: nine empty cells. -/
def initCells : List GridCell :=
  (List.range (GRID_SIZE * GRID_SIZE)).map fun i => ⟨i, []⟩

/-- The state right after startTrack: no fired indices, empty cells. -/
def initSched : SchedState := ⟨[], initCells⟩

/-- One iteration of the track.forEach body in spawnFromTrack, also
reporting the event fired by this item, if any. The fired-set
membership test comes first; a due item is added to the fired set
before its cell index is validated; center or out-of-range cell
indices fire without creating a circle. -/
def processItem (env : SpawnEnv) (elapsed now : ℤ) (s : SchedState)
    (p : ℕ × TrackItem) : SchedState × Option (ℕ × TrackItem) :=
  if p.1 ∈ s.fired then (s, none)
  else if elapsed ≥ p.2.spawnTime - 10 then
    let fired := s.fired.insert p.1
    if p.2.cellIndex = CENTER_INDEX ∨ p.2.cellIndex < 0 ∨
        p.2.cellIndex ≥ (GRID_SIZE * GRID_SIZE : ℕ) then
      (⟨fired, s.cells⟩, some p)
    else
      (⟨fired,
        s.cells.map fun cell =>
          if (cell.index : ℤ) = p.2.cellIndex then
            { cell with circles := cell.circles ++ [mkCircle env p.2 p.1 now] }
          else cell⟩,
        some p)
  else (s, none)

/-- Pair each list element with its position, as track.forEach does. -/
def withIdx (n : ℕ) : List TrackItem → List (ℕ × TrackItem)
  | [] => []
  | x :: xs => (n, x) :: withIdx (n + 1) xs

/-- Process a list of indexed track items in order, collecting the
events fired (in firing order). -/
def spawnList (env : SpawnEnv) (elapsed now : ℤ) :
    List (ℕ × TrackItem) → SchedState → SchedState × List (ℕ × TrackItem)
  | [], s => (s, [])
  | p :: L, s =>
      let r := processItem env elapsed now s p
      let rest := spawnList env elapsed now L r.1
      (rest.1, r.2.toList ++ rest.2)

/-- spawnFromTrack from the source: walk the whole track in array
order, firing every not-yet-fired item whose spawn time is within 10 ms
of the elapsed time. Also returns the list of events fired during this
tick (in firing order). -/
def spawnFromTrack (env : SpawnEnv) (track : List TrackItem) (trackStart now : ℤ)
    (s : SchedState) : SchedState × List (ℕ × TrackItem) :=
  spawnList env (now - trackStart) now (withIdx 0 track) s

/-! ### Per-frame update (the animate callback) -/

/-- JavaScript Math.min on two rationals, written so that the kernel
can evaluate it; it is definitionally the order-theoretic min on ℚ. -/
def ratMin (a b : ℚ) : ℚ := if a ≤ b then a else b

/-- JavaScript number division on two rationals, in the mkRat normal
form the kernel can evaluate. qdiv_eq_div below shows it is exactly
division on ℚ. -/
def qdiv (a b : ℚ) : ℚ :=
  if 0 ≤ b.num then mkRat (a.num * (b.den : ℤ)) (a.den * b.num.natAbs)
  else mkRat (-(a.num * (b.den : ℤ))) (a.den * b.num.natAbs)

/-- The per-circle update in the animate callback: resolved circles are
frozen apart from snapping the position; unresolved circles past
hitWindowEnd + 50 ms become misses; otherwise size and position are
recomputed from elapsed time. -/
def advanceCircle (now : ℤ) (c : Circle) : Circle :=
  if c.hitStatus ≠ none then
    { c with currentPosition := c.targetPosition }
  else if now > c.hitWindowEnd + 50 then
    { c with hitStatus := some .miss, hitTime := some now }
  else
    let elapsed := now - c.startTime
    let progress := ratMin (qdiv (elapsed : ℚ) (c.duration : ℚ)) 1
    { c with
        size := progress
        currentPosition :=
          ⟨c.spawnPosition.x + (c.targetPosition.x - c.spawnPosition.x) * progress,
            c.spawnPosition.y + (c.targetPosition.y - c.spawnPosition.y) * progress⟩ }

/-- The filter in the animate callback: resolved circles are kept while
the feedback period (100 ms) lasts; unresolved circles are kept while
size ≤ 1.1. -/
def keepCircle (now : ℤ) (c : Circle) : Bool :=
  match c.hitTime with
  | some t => decide (now - t < HIT_FEEDBACK_DURATION)
  | none => decide (c.size ≤ mkRat 11 10)

/-- The setCells update of the animate callback: advance then filter
every circle of every cell. -/
def updateCells (now : ℤ) (cells : List GridCell) : List GridCell :=
  cells.map fun cell =>
    { cell with circles := (cell.circles.map (advanceCircle now)).filter (keepCircle now) }

/-! ### Judgment (handleCellPress) -/

/-- The current growth fraction handleCellPress computes for a circle:
min(elapsed / duration, 1). -/
def growthAt (now : ℤ) (c : Circle) : ℚ :=
  ratMin (qdiv ((now - c.startTime : ℤ) : ℚ) (c.duration : ℚ)) 1

/-- First maximum of a nonempty list of (circle, currentSize) pairs:
the element sortedCircles[0] of the source's stable descending sort by
currentSize — a later element replaces the current best only when
strictly bigger. -/
def firstMax (p : Circle × ℚ) : List (Circle × ℚ) → Circle × ℚ
  | [] => p
  | q :: qs => firstMax (if q.2 > p.2 then q else p) qs

/-- The update applied to each circle of the pressed cell once a winner
is chosen: the winner (matched by id) is resolved as a correct hit with
its rating, snapped size and position; every other circle is returned
unchanged. -/
def markHit (now : ℤ) (w : Circle × ℚ) (c : Circle) : Circle :=
  if c.id = w.1.id then
    { c with
        hitStatus := some .correct
        hitTime := some now
        hitRating := some (calculateHitRating now w.1.perfectTime)
        size := w.2
        currentPosition := w.1.targetPosition }
  else c

/-- The unhitCircles filter of handleCellPress: not yet resolved and
not past the window end. -/
def unhitB (now : ℤ) (c : Circle) : Bool :=
  decide (c.hitStatus = none) && decide (now ≤ c.hitWindowEnd)

/-- The circlesInWindow filter of handleCellPress: the window has
opened and not yet closed. -/
def windowB (now : ℤ) (p : Circle × ℚ) : Bool :=
  decide (now ≥ p.1.hitWindowStart) && decide (now ≤ p.1.hitWindowEnd)

/-- Attach the current size to a circle, as handleCellPress does when
building circlesWithCurrentSize. -/
def sizedPair (now : ℤ) (c : Circle) : Circle × ℚ := (c, growthAt now c)

/-- The body of handleCellPress for one cell of the grid: filter to
unhit, in-time circles, attach current sizes, filter to the open
window, and resolve the biggest such circle as a correct hit. -/
def pressCell (cellIndex : ℕ) (now : ℤ) (cell : GridCell) : GridCell :=
  if cell.index ≠ cellIndex then cell
  else if (cell.circles.filter (unhitB now)).isEmpty then cell
  else
    match ((cell.circles.filter (unhitB now)).map (sizedPair now)).filter (windowB now) with
    | [] => cell
    | p :: ps => { cell with circles := cell.circles.map (markHit now (firstMax p ps)) }

/-- handleCellPress from the source: map pressCell over the grid. -/
def handleCellPress (cellIndex : ℕ) (now : ℤ) (cells : List GridCell) : List GridCell :=
  cells.map (pressCell cellIndex now)

/-! ### The whole engine as a transition system -/

/-- An external stimulus: a frame of the animation loop (which spawns
due events and then advances and filters every circle), or a cell
activation (pointer tap or resolved key press). -/
inductive GEvent where
  | tick (now : ℤ)
  | press (cellIndex : ℕ) (now : ℤ)

/-- The wall-clock time of an event. -/
def GEvent.time : GEvent → ℤ
  | .tick now => now
  | .press _ now => now

/-- One step of the engine. -/
def stepEvent (env : SpawnEnv) (track : List TrackItem) (trackStart : ℤ)
    (s : SchedState) : GEvent → SchedState
  | .tick now =>
      let s' := (spawnFromTrack env track trackStart now s).1
      ⟨s'.fired, updateCells now s'.cells⟩
  | .press cellIndex now => ⟨s.fired, handleCellPress cellIndex now s.cells⟩

/-- Run the engine over a sequence of stimuli. -/
def runEvents (env : SpawnEnv) (track : List TrackItem) (trackStart : ℤ) :
    List GEvent → SchedState → SchedState
  | [], s => s
  | e :: rest, s => runEvents env track trackStart rest (stepEvent env track trackStart s e)

/-- Run only scheduler ticks, accumulating the full firing log. Used to
state the scheduler ordering and idempotence claims. -/
def runSched (env : SpawnEnv) (track : List TrackItem) (trackStart : ℤ) :
    List ℤ → SchedState × List (ℕ × TrackItem) → SchedState × List (ℕ × TrackItem)
  | [], sl => sl
  | now :: rest, sl =>
      runSched env track trackStart rest
        ((spawnFromTrack env track trackStart now sl.1).1,
          sl.2 ++ (spawnFromTrack env track trackStart now sl.1).2)

/-- A raw keyboard event. -/
inductive InputEvent where
  | keyDown (k : GKey)
  | keyUp (k : GKey)
deriving DecidableEq, Repr

/-- Run a sequence of keyboard events, collecting the cell indices of
the presses fired (in order). -/
def runInput : List InputEvent → InputState → InputState × List ℕ
  | [], s => (s, [])
  | .keyDown k :: rest, s =>
      let (s', fired) := handleKeyDown k s
      let (s'', l) := runInput rest s'
      (s'', fired.toList ++ l)
  | .keyUp k :: rest, s => runInput rest (handleKeyUp k s)

end Janitor

namespace Janitor

/-! ### Claim C2: hit-rating windows -/

/-- C2: the rating resolved by Judgment is a pure function of the
absolute difference between the activation time and the winner's
perfect time: at most 25 ms gives perfect, 26-50 ms gives great,
51-100 ms gives good, and anything larger gives ok; in particular an
activation at exactly P is perfect, at P+30 great, at P+60 good and at
P+120 ok. -/
theorem hit_rating_windows (now P : ℤ) :
    (|now - P| ≤ 25 → calculateHitRating now P = .perfect) ∧
    (25 < |now - P| → |now - P| ≤ 50 → calculateHitRating now P = .great) ∧
    (50 < |now - P| → |now - P| ≤ 100 → calculateHitRating now P = .good) ∧
    (100 < |now - P| → calculateHitRating now P = .ok) ∧
    calculateHitRating P P = .perfect ∧
    calculateHitRating (P + 30) P = .great ∧
    calculateHitRating (P + 60) P = .good ∧
    calculateHitRating (P + 120) P = .ok := by
  refine ⟨fun h => ?_, fun h h' => ?_, fun h h' => ?_, fun h => ?_, ?_, ?_, ?_, ?_⟩ <;>
    simp only [calculateHitRating, PERFECT_WINDOW, GREAT_WINDOW, GOOD_WINDOW,
      show P - P = 0 from by ring, show P + 30 - P = 30 from by ring,
      show P + 60 - P = 60 from by ring, show P + 120 - P = 120 from by ring,
      show |(0 : ℤ)| = 0 from by norm_num, show |(30 : ℤ)| = 30 from by norm_num,
      show |(60 : ℤ)| = 60 from by norm_num, show |(120 : ℤ)| = 120 from by norm_num] <;>
    split_ifs with h1 h2 h3 <;> first | rfl | omega

/-- Witness for hit_rating_windows: the hypotheses are satisfiable and
give the stated ratings at concrete timing differences. -/
theorem hit_rating_windows_witness :
    (25 < |(40 : ℤ) - 0| ∧ |(40 : ℤ) - 0| ≤ 50) ∧
    calculateHitRating 40 0 = .great :=
  ⟨by decide, (hit_rating_windows 40 0).2.1 (by decide) (by decide)⟩

/-! ### Claim C5: key-combination table -/

/-- C5 counterexample: the claim says the held sets {Up,Down} and
{Left,Right} map to no cell; in the source the corner checks fail and
the single-direction checks then succeed, so {Up,Down} maps to cell 1
and {Left,Right} maps to cell 3. -/
theorem key_table_opposites :
    getCellIndexFromKeys ⟨true, true, false, false⟩ = some 1 ∧
    getCellIndexFromKeys ⟨false, false, true, true⟩ = some 3 ∧
    getCellIndexFromKeys ⟨true, true, false, false⟩ ≠ none ∧
    getCellIndexFromKeys ⟨false, false, true, true⟩ ≠ none := by
  decide

/-- C5 amended: the full 16-row table of the held-set-to-cell mapping.
Singles: Up gives 1, Down 7, Left 3, Right 5; corner pairs: Up+Left 0,
Up+Right 2, Down+Left 6, Down+Right 8, and corners take precedence over
lone directions (all supersets of a corner pair map to the first
matching corner in the order UL, UR, DL, DR); the opposite pairs are
resolved by the single-direction fallthrough, {Up,Down} to 1 and
{Left,Right} to 3; the empty set selects no cell. Key-state records are
(up, down, left, right). -/
theorem key_table_full :
    getCellIndexFromKeys ⟨false, false, false, false⟩ = none ∧
    getCellIndexFromKeys ⟨true, false, false, false⟩ = some 1 ∧
    getCellIndexFromKeys ⟨false, true, false, false⟩ = some 7 ∧
    getCellIndexFromKeys ⟨false, false, true, false⟩ = some 3 ∧
    getCellIndexFromKeys ⟨false, false, false, true⟩ = some 5 ∧
    getCellIndexFromKeys ⟨true, false, true, false⟩ = some 0 ∧
    getCellIndexFromKeys ⟨true, false, false, true⟩ = some 2 ∧
    getCellIndexFromKeys ⟨false, true, true, false⟩ = some 6 ∧
    getCellIndexFromKeys ⟨false, true, false, true⟩ = some 8 ∧
    getCellIndexFromKeys ⟨true, true, false, false⟩ = some 1 ∧
    getCellIndexFromKeys ⟨false, false, true, true⟩ = some 3 ∧
    getCellIndexFromKeys ⟨true, true, true, false⟩ = some 0 ∧
    getCellIndexFromKeys ⟨true, true, false, true⟩ = some 2 ∧
    getCellIndexFromKeys ⟨true, false, true, true⟩ = some 0 ∧
    getCellIndexFromKeys ⟨false, true, true, true⟩ = some 6 ∧
    getCellIndexFromKeys ⟨true, true, true, true⟩ = some 0 := by
  decide

/-! ### Claim C7: press-edge debouncing -/

/-- C7 counterexample: the claim says a press fires only when the
held-set signature differs from the signature recorded at the last
fired press. Run the events keyDown Up, keyDown Left, keyUp Left,
keyDown Left from the initial state. The second event fires a press for
cell 0 with held set {Up,Left}; the fourth event fires a press for cell
0 again even though its held set {Up,Left} equals the held set at the
last fired press, because handleKeyUp rewrote the recorded signature to
{Up} on the partial release. The claim predicts two fired presses for
this trace; the source fires three. -/
theorem debounce_refire_after_partial_release :
    (runInput [.keyDown .up, .keyDown .left] initInput).2 = [1, 0] ∧
    (runInput [.keyDown .up, .keyDown .left] initInput).1.pressed =
      ⟨true, false, true, false⟩ ∧
    (runInput [.keyDown .up, .keyDown .left, .keyUp .left, .keyDown .left]
        initInput).1.pressed = ⟨true, false, true, false⟩ ∧
    (runInput [.keyDown .up, .keyDown .left, .keyUp .left, .keyDown .left]
        initInput).2 = [1, 0, 0] := by
  decide

/-- Unfolding of handleKeyDown for an arrow key. -/
theorem handleKeyDown_arrow (k : GKey) (s : InputState) (hk : isArrow k = true) :
    handleKeyDown k s =
      (match getCellIndexFromKeys (s.pressed.set k true) with
        | some targetIndex =>
            if s.pressed.set k true ≠ s.last
            then (⟨s.pressed.set k true, s.pressed.set k true⟩, some targetIndex)
            else (⟨s.pressed.set k true, s.last⟩, none)
        | none => (⟨s.pressed.set k true, s.last⟩, none)) := by
  simp [handleKeyDown, hk]

/-- Unfolding of handleKeyDown for a non-arrow key. -/
theorem handleKeyDown_not_arrow (k : GKey) (s : InputState) (hk : isArrow k = false) :
    handleKeyDown k s = (s, none) := by
  simp [handleKeyDown, hk]

/-- Unfolding of handleKeyUp for an arrow key. -/
theorem handleKeyUp_arrow (k : GKey) (s : InputState) (hk : isArrow k = true) :
    handleKeyUp k s =
      (if (s.pressed.set k false).isEmpty then ⟨s.pressed.set k false, KeyState.empty⟩
        else if s.pressed.set k false ≠ s.last then ⟨s.pressed.set k false, s.pressed.set k false⟩
        else ⟨s.pressed.set k false, s.last⟩) := by
  simp [handleKeyUp, hk]

/-- C7 amended: a key-down fires a press exactly when the updated held
set maps to a cell and its signature differs from the currently
recorded signature, where the recorded signature is set at each fired
press and is additionally updated by every key release: cleared when
the release empties the held set, and otherwise overwritten with the
current held set. In particular the claim's scenarios hold: holding Up
fires one press for cell 1, an auto-repeated key-down of Up fires
nothing more, additionally pressing Left fires exactly one new press
for cell 0 (two total), and after releasing all keys pressing Up again
fires a new press for cell 1. -/
theorem debounce_signature_rules (k : GKey) (s : InputState) :
    (isArrow k = true →
      (((handleKeyDown k s).2 ≠ none) ↔
        (getCellIndexFromKeys (s.pressed.set k true) ≠ none ∧
          s.pressed.set k true ≠ s.last))) ∧
    ((handleKeyDown k s).2 ≠ none →
      (handleKeyDown k s).1.last = s.pressed.set k true) ∧
    (isArrow k = true →
      (handleKeyUp k s).last =
        (if (s.pressed.set k false).isEmpty then KeyState.empty
          else s.pressed.set k false)) ∧
    (runInput [.keyDown .up] initInput).2 = [1] ∧
    (runInput [.keyDown .up, .keyDown .up] initInput).2 = [1] ∧
    (runInput [.keyDown .up, .keyDown .up, .keyDown .left] initInput).2 = [1, 0] ∧
    (runInput [.keyDown .up, .keyDown .left, .keyUp .up, .keyUp .left,
        .keyDown .up] initInput).2 = [1, 0, 1] := by
  refine ⟨fun hk => ?_, fun hf => ?_, fun hk => ?_, by decide, by decide, by decide, by decide⟩
  · rw [handleKeyDown_arrow k s hk]
    rcases hcell : getCellIndexFromKeys (s.pressed.set k true) with _ | t
    · simp [hcell]
    · by_cases hlast : s.pressed.set k true = s.last
      · simp [hcell, hlast]
      · simp [hcell, hlast]
  · rcases hk : isArrow k with _ | _
    · rw [handleKeyDown_not_arrow k s hk] at hf
      exact absurd rfl hf
    · rw [handleKeyDown_arrow k s hk] at hf ⊢
      revert hf
      rcases hcell : getCellIndexFromKeys (s.pressed.set k true) with _ | t
      · intro hf
        exact absurd rfl hf
      · intro hf
        by_cases hlast : s.pressed.set k true = s.last
        · simp [hlast] at hf
        · simp [hlast]
  · rw [handleKeyUp_arrow k s hk]
    by_cases hemp : (s.pressed.set k false).isEmpty
    · simp [hemp]
    · rw [if_neg hemp, if_neg hemp]
      by_cases hlast : s.pressed.set k false = s.last
      · rw [if_neg (not_not_intro hlast)]
        exact hlast.symm
      · rw [if_pos hlast]

/-- Witness for debounce_signature_rules: at the concrete state with Up
held and recorded signature {Up}, pressing Left fires (the combined
signature differs from the recorded one), and the recorded signature
becomes {Up,Left}. -/
theorem debounce_signature_rules_witness :
    ((handleKeyDown .left ⟨⟨true, false, false, false⟩, ⟨true, false, false, false⟩⟩).2 ≠ none) ∧
    (handleKeyDown .left ⟨⟨true, false, false, false⟩, ⟨true, false, false, false⟩⟩).1.last =
      KeyState.set ⟨true, false, false, false⟩ .left true :=
  ⟨by decide,
    (debounce_signature_rules .left
        ⟨⟨true, false, false, false⟩, ⟨true, false, false, false⟩⟩).2.1 (by decide)⟩

/-! ### Arithmetic bridges -/

/-- qdiv is division on ℚ. -/
theorem qdiv_eq_div (a b : ℚ) : qdiv a b = a / b := by
  rw [qdiv]
  rcases le_or_lt 0 b.num with h | h
  · rw [if_pos h, Rat.mkRat_eq_divInt]
    have hd : ((a.den * b.num.natAbs : ℕ) : ℤ) = (a.den : ℤ) * b.num := by
      push_cast
      rw [abs_of_nonneg h]
    rw [hd, Rat.divInt_eq_div]
    push_cast
    conv_rhs => rw [← Rat.num_div_den a, ← Rat.num_div_den b,
      div_eq_mul_inv, inv_div, div_mul_div_comm]
  · rw [if_neg (not_le.mpr h), Rat.mkRat_eq_divInt]
    have hd : ((a.den * b.num.natAbs : ℕ) : ℤ) = (a.den : ℤ) * (-b.num) := by
      push_cast
      rw [abs_of_neg h]
    rw [hd, Rat.divInt_eq_div]
    push_cast
    rw [mul_neg, neg_div_neg_eq]
    conv_rhs => rw [← Rat.num_div_den a, ← Rat.num_div_den b,
      div_eq_mul_inv, inv_div, div_mul_div_comm]

/-- ratMin never exceeds its second argument. -/
theorem ratMin_le_right (a b : ℚ) : ratMin a b ≤ b := by
  rw [ratMin]
  split_ifs with h
  · exact h
  · exact le_refl b

/-- ratMin of two nonnegative rationals is nonnegative. -/
theorem ratMin_nonneg (a b : ℚ) (h1 : 0 ≤ a) (h2 : 0 ≤ b) : 0 ≤ ratMin a b := by
  rw [ratMin]
  split_ifs
  · exact h1
  · exact h2

/-- The growth fraction lies in [0, 1] for a live circle. -/
theorem growthAt_bounds (now : ℤ) (c : Circle)
    (h1 : c.startTime ≤ now) (h2 : c.duration = GROWTH_DURATION) :
    0 ≤ growthAt now c ∧ growthAt now c ≤ 1 := by
  constructor
  · refine ratMin_nonneg _ _ ?_ (by norm_num)
    rw [qdiv_eq_div]
    apply div_nonneg
    · exact_mod_cast Int.sub_nonneg.mpr h1
    · rw [h2, GROWTH_DURATION]
      norm_num
  · exact ratMin_le_right _ _

/-! ### Scheduler lemmas -/

/-- A fired item is skipped before any other per-event logic runs. -/
theorem processItem_of_mem (env : SpawnEnv) (e n : ℤ) (s : SchedState)
    (p : ℕ × TrackItem) (h : p.1 ∈ s.fired) :
    processItem env e n s p = (s, none) := by
  simp [processItem, h]

/-- processItem only grows the fired set. -/
theorem processItem_fired_mono (env : SpawnEnv) (e n : ℤ) (s : SchedState)
    (p : ℕ × TrackItem) (j : ℕ) (h : j ∈ s.fired) :
    j ∈ (processItem env e n s p).1.fired := by
  unfold processItem
  split_ifs <;> simp_all [List.mem_insert_iff]

/-- A logged item was not yet fired, and is fired afterwards;
a skipped item leaves the state unchanged. -/
theorem processItem_log_cases (env : SpawnEnv) (e n : ℤ) (s : SchedState)
    (p : ℕ × TrackItem) :
    ((processItem env e n s p).2 = some p ∧ p.1 ∉ s.fired ∧
        (processItem env e n s p).1.fired = s.fired.insert p.1) ∨
      ((processItem env e n s p).2 = none ∧ (processItem env e n s p).1 = s) := by
  unfold processItem
  split_ifs with h1 h2 h3 <;> simp_all

/-- Invariant tying the accumulated firing log to the fired set: logged
indices are pairwise distinct and all recorded as fired. -/
def SpawnLogInv (s : SchedState) (log : List (ℕ × TrackItem)) : Prop :=
  (log.map Prod.fst).Nodup ∧ ∀ i ∈ log.map Prod.fst, i ∈ s.fired

/-- A forEach pass preserves the firing-log invariant. -/
theorem spawnList_logInv (env : SpawnEnv) (e n : ℤ) :
    ∀ (L : List (ℕ × TrackItem)) (s : SchedState) (log : List (ℕ × TrackItem)),
      SpawnLogInv s log →
      SpawnLogInv (spawnList env e n L s).1 (log ++ (spawnList env e n L s).2)
  | [], s, log, h => by simpa [spawnList] using h
  | p :: L, s, log, h => by
      rcases processItem_log_cases env e n s p with ⟨hl, hnf, hf⟩ | ⟨hl, hs⟩
      · have hinv : SpawnLogInv (processItem env e n s p).1 (log ++ [p]) := by
          refine ⟨?_, ?_⟩
          · rw [List.map_append]
            refine List.Nodup.append h.1 (by simp) ?_
            intro i hi hi'
            simp only [List.map_cons, List.map_nil, List.mem_singleton] at hi'
            exact hnf (hi' ▸ h.2 i hi)
          · intro i hi
            rw [List.map_append, List.mem_append] at hi
            rw [hf]
            rcases hi with hi | hi
            · exact List.mem_insert_of_mem (h.2 i hi)
            · simp only [List.map_cons, List.map_nil, List.mem_singleton] at hi
              exact hi ▸ List.mem_insert_self _ _
        have := spawnList_logInv env e n L (processItem env e n s p).1 (log ++ [p]) hinv
        simpa [spawnList, hl, List.append_assoc] using this
      · have := spawnList_logInv env e n L (processItem env e n s p).1 log (by rw [hs]; exact h)
        simpa [spawnList, hl] using this

/-- A run of scheduler ticks preserves the firing-log invariant. -/
theorem runSched_logInv (env : SpawnEnv) (track : List TrackItem) (ts : ℤ) :
    ∀ (trace : List ℤ) (sl : SchedState × List (ℕ × TrackItem)),
      SpawnLogInv sl.1 sl.2 →
      SpawnLogInv (runSched env track ts trace sl).1 (runSched env track ts trace sl).2
  | [], sl, h => h
  | now :: rest, sl, h => by
      rw [runSched]
      exact runSched_logInv env track ts rest _
        (spawnList_logInv env (now - ts) now (withIdx 0 track) sl.1 sl.2 h)

/-! ### Claim C3: spawn idempotence -/

/-- C3: over any run of scheduler ticks with non-decreasing elapsed
time, each track event index fires at most once (so it produces at most
one Target ever), the fired-set membership test short-circuits all
other per-event logic including cell-index validation, and the grid can
only change for an event that is fired (logged) by that very step. -/
theorem spawn_at_most_once (env : SpawnEnv) (track : List TrackItem) (ts : ℤ)
    (trace : List ℤ) (hmono : List.Pairwise (· ≤ ·) trace) :
    (∀ i : ℕ,
      ((runSched env track ts trace (initSched, [])).2.map Prod.fst).count i ≤ 1) ∧
    (∀ (e n : ℤ) (s : SchedState) (p : ℕ × TrackItem), p.1 ∈ s.fired →
      processItem env e n s p = (s, none)) ∧
    (∀ (e n : ℤ) (s : SchedState) (p : ℕ × TrackItem),
      (processItem env e n s p).1.cells ≠ s.cells →
      (processItem env e n s p).2 = some p) := by
  refine ⟨fun i => ?_, fun e n s p h => processItem_of_mem env e n s p h, fun e n s p h => ?_⟩
  · have h := runSched_logInv env track ts trace (initSched, []) ⟨by simp, by simp⟩
    exact List.nodup_iff_count_le_one.mp h.1 i
  · rcases processItem_log_cases env e n s p with ⟨hl, _, _⟩ | ⟨hl, hs⟩
    · exact hl
    · exact absurd (congrArg SchedState.cells hs) h

/-- Witness for spawn_at_most_once: a concrete two-tick run of a
one-event track fires index 0 at most once. -/
theorem spawn_at_most_once_witness :
    List.Pairwise (· ≤ ·) ([0, 100] : List ℤ) ∧
    ((runSched ⟨⟨0, 0⟩, fun _ => ⟨0, 0⟩⟩ [⟨3, 0⟩] 0 [0, 100]
        (initSched, [])).2.map Prod.fst).count 0 ≤ 1 :=
  ⟨by decide,
    (spawn_at_most_once ⟨⟨0, 0⟩, fun _ => ⟨0, 0⟩⟩ [⟨3, 0⟩] 0 [0, 100] (by decide)).1 0⟩

/-! ### Claim C9: invalid spawn events are consumed without effect -/

/-- Validity of every circle's cell index in the grid. -/
def CellsValid (cells : List GridCell) : Prop :=
  ∀ cell ∈ cells, ∀ c ∈ cell.circles,
    c.cellIndex ≠ CENTER_INDEX ∧ 0 ≤ c.cellIndex ∧
      c.cellIndex < (GRID_SIZE * GRID_SIZE : ℕ)

/-- processItem creates circles only with valid cell indices. -/
theorem processItem_cellsValid (env : SpawnEnv) (e n : ℤ) (s : SchedState)
    (p : ℕ × TrackItem) (h : CellsValid s.cells) :
    CellsValid (processItem env e n s p).1.cells := by
  unfold processItem
  split_ifs with h1 h2 h3
  · exact h
  · exact h
  · intro cell hcell c hc
    simp only [List.mem_map] at hcell
    obtain ⟨cell0, hcell0, rfl⟩ := hcell
    by_cases hidx : (cell0.index : ℤ) = p.2.cellIndex
    · rw [if_pos hidx] at hc
      simp only [List.mem_append, List.mem_singleton] at hc
      rcases hc with hc | rfl
      · exact h cell0 hcell0 c hc
      · push_neg at h3
        simp only [mkCircle]
        exact ⟨h3.1, h3.2.1, h3.2.2⟩
    · rw [if_neg hidx] at hc
      exact h cell0 hcell0 c hc
  · exact h

/-- A forEach pass creates circles only with valid cell indices. -/
theorem spawnList_cellsValid (env : SpawnEnv) (e n : ℤ) :
    ∀ (L : List (ℕ × TrackItem)) (s : SchedState), CellsValid s.cells →
      CellsValid (spawnList env e n L s).1.cells
  | [], _, h => h
  | p :: L, s, h =>
      spawnList_cellsValid env e n L (processItem env e n s p).1
        (processItem_cellsValid env e n s p h)

/-- Scheduler runs create circles only with valid cell indices. -/
theorem runSched_cellsValid (env : SpawnEnv) (track : List TrackItem) (ts : ℤ) :
    ∀ (trace : List ℤ) (sl : SchedState × List (ℕ × TrackItem)),
      CellsValid sl.1.cells → CellsValid (runSched env track ts trace sl).1.cells
  | [], _, h => h
  | now :: rest, sl, h => by
      rw [runSched]
      exact runSched_cellsValid env track ts rest _
        (spawnList_cellsValid env (now - ts) now (withIdx 0 track) sl.1 h)

/-- C9: a due spawn event whose cell index is the center or out of
range is still fired — its index is consumed into the fired set — but
the grid is left completely unchanged and no error is raised; and no
circle for such an event ever exists: every circle in any reachable
scheduler state has a valid, non-center cell index. -/
theorem invalid_spawn_consumed (env : SpawnEnv) (e n : ℤ) (s : SchedState)
    (p : ℕ × TrackItem) (hnf : p.1 ∉ s.fired) (hdue : e ≥ p.2.spawnTime - 10)
    (hbad : p.2.cellIndex = CENTER_INDEX ∨ p.2.cellIndex < 0 ∨
      p.2.cellIndex ≥ (GRID_SIZE * GRID_SIZE : ℕ)) :
    processItem env e n s p = (⟨s.fired.insert p.1, s.cells⟩, some p) ∧
    (processItem env e n s p).1.cells = s.cells ∧
    (∀ (track : List TrackItem) (ts : ℤ) (trace : List ℤ),
      ∀ cell ∈ (runSched env track ts trace (initSched, [])).1.cells,
        ∀ c ∈ cell.circles,
          c.cellIndex ≠ CENTER_INDEX ∧ 0 ≤ c.cellIndex ∧
            c.cellIndex < (GRID_SIZE * GRID_SIZE : ℕ)) := by
  have hmain : processItem env e n s p = (⟨s.fired.insert p.1, s.cells⟩, some p) := by
    unfold processItem
    rw [if_neg hnf, if_pos hdue, if_pos hbad]
  refine ⟨hmain, by rw [hmain], fun track ts trace => ?_⟩
  refine runSched_cellsValid env track ts trace (initSched, []) ?_
  intro cell hcell c hc
  have h' : cell ∈ (List.range (GRID_SIZE * GRID_SIZE)).map
      (fun i => (⟨i, []⟩ : GridCell)) := hcell
  rw [List.mem_map] at h'
  obtain ⟨i, _, rfl⟩ := h'
  exact absurd hc (List.not_mem_nil c)

/-- Witness for invalid_spawn_consumed: a due event targeting the
center cell is consumed into the fired set without touching the grid. -/
theorem invalid_spawn_consumed_witness :
    ((0 : ℕ) ∉ initSched.fired ∧ (0 : ℤ) ≥ (⟨4, 0⟩ : TrackItem).spawnTime - 10 ∧
      ((⟨4, 0⟩ : TrackItem).cellIndex = CENTER_INDEX ∨ (⟨4, 0⟩ : TrackItem).cellIndex < 0 ∨
        (⟨4, 0⟩ : TrackItem).cellIndex ≥ (GRID_SIZE * GRID_SIZE : ℕ))) ∧
    processItem ⟨⟨0, 0⟩, fun _ => ⟨0, 0⟩⟩ 0 0 initSched (0, ⟨4, 0⟩) =
      (⟨initSched.fired.insert 0, initSched.cells⟩, some (0, ⟨4, 0⟩)) :=
  ⟨⟨by decide, by decide, by decide⟩,
    (invalid_spawn_consumed ⟨⟨0, 0⟩, fun _ => ⟨0, 0⟩⟩ 0 0 initSched (0, ⟨4, 0⟩)
      (by decide) (by decide) (by decide)).1⟩

/-! ### Firing order (claim C8) -/

/-- Membership in an indexed track: every entry is the track item at
its own index. -/
theorem mem_withIdx : ∀ (L : List TrackItem) (n : ℕ) (p : ℕ × TrackItem),
    p ∈ withIdx n L →
    ∃ (k : ℕ) (hk : k < L.length), p.1 = n + k ∧ p.2 = L.get ⟨k, hk⟩
  | x :: xs, n, p, h => by
      rw [withIdx] at h
      rcases List.mem_cons.mp h with rfl | h'
      · exact ⟨0, by simp, by simp⟩
      · obtain ⟨k, hk, h1, h2⟩ := mem_withIdx xs (n + 1) p h'
        exact ⟨k + 1, by simpa using hk, by omega, by simpa using h2⟩

/-- Every position of the track appears in its indexed form. -/
theorem withIdx_mem : ∀ (L : List TrackItem) (n k : ℕ) (hk : k < L.length),
    (n + k, L.get ⟨k, hk⟩) ∈ withIdx n L
  | x :: xs, n, 0, _ => by rw [withIdx]; exact List.mem_cons_self _ _
  | x :: xs, n, k + 1, hk => by
      rw [withIdx]
      refine List.mem_cons_of_mem _ ?_
      have := withIdx_mem xs (n + 1) k (by simpa using hk)
      simpa [Nat.add_assoc, Nat.add_comm 1 k] using this

/-- Indices are strictly increasing along an indexed track. -/
theorem withIdx_pairwise : ∀ (L : List TrackItem) (n : ℕ),
    (withIdx n L).Pairwise (fun p q => p.1 < q.1)
  | [], _ => List.Pairwise.nil
  | x :: xs, n => by
      rw [withIdx]
      refine List.Pairwise.cons ?_ (withIdx_pairwise xs (n + 1))
      intro q hq
      obtain ⟨k, hk, h1, _⟩ := mem_withIdx xs (n + 1) q hq
      omega

/-- The firing predicate of one tick: not yet fired, and due. -/
def dueNow (F : List ℕ) (e : ℤ) (p : ℕ × TrackItem) : Bool :=
  decide (p.1 ∉ F) && decide (e ≥ p.2.spawnTime - 10)

/-- processItem on an unfired, due item. -/
theorem processItem_due (env : SpawnEnv) (e n : ℤ) (s : SchedState) (p : ℕ × TrackItem)
    (hnf : p.1 ∉ s.fired) (hdue : e ≥ p.2.spawnTime - 10) :
    (processItem env e n s p).2 = some p ∧
    (processItem env e n s p).1.fired = s.fired.insert p.1 := by
  unfold processItem
  rw [if_neg hnf, if_pos hdue]
  split_ifs <;> simp

/-- processItem on an unfired item that is not yet due. -/
theorem processItem_not_due (env : SpawnEnv) (e n : ℤ) (s : SchedState) (p : ℕ × TrackItem)
    (hnf : p.1 ∉ s.fired) (hdue : ¬ e ≥ p.2.spawnTime - 10) :
    processItem env e n s p = (s, none) := by
  unfold processItem
  rw [if_neg hnf, if_neg hdue]

/-- The events fired by one forEach pass are exactly the unfired, due
items, in track order (for item lists with distinct indices). -/
theorem spawnList_log_char (env : SpawnEnv) (e n : ℤ) :
    ∀ (L : List (ℕ × TrackItem)) (s : SchedState), (L.map Prod.fst).Nodup →
      (spawnList env e n L s).2 = L.filter (dueNow s.fired e)
  | [], s, _ => rfl
  | p :: L, s, hnd => by
      rw [List.map_cons, List.nodup_cons] at hnd
      by_cases hm : p.1 ∈ s.fired
      · rw [spawnList, processItem_of_mem env e n s p hm]
        have hrest := spawnList_log_char env e n L s hnd.2
        have hp : dueNow s.fired e p = false := by
          simp [dueNow, hm]
        simp [hrest, List.filter_cons, hp]
      · by_cases hdue : e ≥ p.2.spawnTime - 10
        · obtain ⟨hl, hf⟩ := processItem_due env e n s p hm hdue
          have hrest := spawnList_log_char env e n L (processItem env e n s p).1 hnd.2
          have hsame : L.filter (dueNow (processItem env e n s p).1.fired e) =
              L.filter (dueNow s.fired e) := by
            refine List.filter_congr ?_
            intro q hq
            have hne : q.1 ≠ p.1 := by
              intro hcontra
              exact hnd.1 (hcontra ▸ List.mem_map_of_mem Prod.fst hq)
            simp only [dueNow, hf]
            have : (q.1 ∈ s.fired.insert p.1) ↔ (q.1 ∈ s.fired) := by
              rw [List.mem_insert_iff]
              exact or_iff_right hne
            by_cases hq' : q.1 ∈ s.fired
            · simp [hq', this.mpr hq']
            · simp [hq', this, hq']
          have hp : dueNow s.fired e p = true := by
            simp [dueNow, hm, hdue]
          rw [spawnList, hrest, hsame, List.filter_cons, hp, hl]
          rfl
        · rw [spawnList, processItem_not_due env e n s p hm hdue]
          have hrest := spawnList_log_char env e n L s hnd.2
          have hp : dueNow s.fired e p = false := by
            simp [dueNow, hdue]
          simp [hrest, List.filter_cons, hp]

/-- The fired set after a forEach pass is the old fired set plus the
indices logged by the pass. -/
theorem spawnList_fired_char (env : SpawnEnv) (e n : ℤ) :
    ∀ (L : List (ℕ × TrackItem)) (s : SchedState) (j : ℕ),
      j ∈ (spawnList env e n L s).1.fired ↔
        j ∈ s.fired ∨ j ∈ (spawnList env e n L s).2.map Prod.fst
  | [], s, j => by simp [spawnList]
  | p :: L, s, j => by
      rcases processItem_log_cases env e n s p with ⟨hl, hnf, hf⟩ | ⟨hl, hs⟩
      · rw [spawnList]
        have ih := spawnList_fired_char env e n L (processItem env e n s p).1 j
        simp only [hl, Option.toList_some, List.singleton_append, List.map_cons,
          List.mem_cons] at ih ⊢
        rw [ih, hf, List.mem_insert_iff]
        tauto
      · rw [spawnList]
        have ih := spawnList_fired_char env e n L (processItem env e n s p).1 j
        simp only [hl, Option.toList_none, List.nil_append] at ih ⊢
        rw [ih, hs]

/-- Convenience form of mem_withIdx for the zero offset. -/
theorem mem_withIdx_zero (L : List TrackItem) (p : ℕ × TrackItem) (h : p ∈ withIdx 0 L) :
    ∃ hp : p.1 < L.length, p.2 = L.get ⟨p.1, hp⟩ := by
  obtain ⟨k, hk, h1, h2⟩ := mem_withIdx L 0 p h
  have : p.1 = k := by omega
  subst this
  exact ⟨hk, h2⟩

/-- Convenience form of withIdx_mem for the zero offset. -/
theorem withIdx_zero_mem (L : List TrackItem) (j : ℕ) (hj : j < L.length) :
    (j, L.get ⟨j, hj⟩) ∈ withIdx 0 L := by
  have := withIdx_mem L 0 j hj
  simpa using this

/-- The ordering invariant of a scheduler run over a sorted track:
every logged event is the track item at its own index and is recorded
as fired; the log is non-decreasing in spawn time; fired indices are in
range; and every fired index has spawn time at most that of any
unfired index. -/
def TrackOrdInv (track : List TrackItem) (s : SchedState) (log : List (ℕ × TrackItem)) : Prop :=
  (∀ p ∈ log, ∃ hp : p.1 < track.length, p.2 = track.get ⟨p.1, hp⟩ ∧ p.1 ∈ s.fired) ∧
  log.Pairwise (fun p q => p.2.spawnTime ≤ q.2.spawnTime) ∧
  (∀ i ∈ s.fired, i < track.length) ∧
  (∀ i j (hi : i < track.length) (hj : j < track.length),
    i ∈ s.fired → j ∉ s.fired →
    (track.get ⟨i, hi⟩).spawnTime ≤ (track.get ⟨j, hj⟩).spawnTime)

/-- One tick over a sorted track preserves the ordering invariant. -/
theorem spawnTick_ordInv (env : SpawnEnv) (e n : ℤ) (track : List TrackItem)
    (hsort : track.Pairwise (fun a b => a.spawnTime ≤ b.spawnTime))
    (s : SchedState) (log : List (ℕ × TrackItem)) (hinv : TrackOrdInv track s log) :
    TrackOrdInv track (spawnList env e n (withIdx 0 track) s).1
      (log ++ (spawnList env e n (withIdx 0 track) s).2) := by
  obtain ⟨hent, hpw, hrange, hord⟩ := hinv
  have hndfst : ((withIdx 0 track).map Prod.fst).Nodup := by
    have h1 := withIdx_pairwise track 0
    have h2 : ((withIdx 0 track).map Prod.fst).Pairwise (· < ·) :=
      h1.map Prod.fst (fun a b h => h)
    exact h2.imp Nat.ne_of_lt
  have hlog := spawnList_log_char env e n (withIdx 0 track) s hndfst
  have hfired := spawnList_fired_char env e n (withIdx 0 track) s
  have hsget : ∀ (i j : ℕ) (hi : i < track.length) (hj : j < track.length), i < j →
      (track.get ⟨i, hi⟩).spawnTime ≤ (track.get ⟨j, hj⟩).spawnTime := by
    intro i j hi hj hij
    exact List.pairwise_iff_get.mp hsort ⟨i, hi⟩ ⟨j, hj⟩ hij
  -- facts about newly fired entries
  have hnew : ∀ p ∈ (spawnList env e n (withIdx 0 track) s).2,
      ∃ hp : p.1 < track.length, p.2 = track.get ⟨p.1, hp⟩ ∧ p.1 ∉ s.fired ∧
        e ≥ p.2.spawnTime - 10 := by
    intro p hp
    rw [hlog] at hp
    have hmem := List.mem_of_mem_filter hp
    have hdue := List.of_mem_filter hp
    obtain ⟨hlt, hitem⟩ := mem_withIdx_zero track p hmem
    simp only [dueNow, Bool.and_eq_true, decide_eq_true_eq] at hdue
    exact ⟨hlt, hitem, hdue.1, hdue.2⟩
  refine ⟨?_, ?_, ?_, ?_⟩
  · intro p hp
    rcases List.mem_append.mp hp with hp | hp
    · obtain ⟨h1, h2, h3⟩ := hent p hp
      exact ⟨h1, h2, (hfired p.1).mpr (Or.inl h3)⟩
    · obtain ⟨h1, h2, _, _⟩ := hnew p hp
      exact ⟨h1, h2, (hfired p.1).mpr (Or.inr (List.mem_map_of_mem Prod.fst hp))⟩
  · rw [List.pairwise_append]
    refine ⟨hpw, ?_, ?_⟩
    · have hpw0 : (spawnList env e n (withIdx 0 track) s).2.Pairwise
          (fun p q => p.1 < q.1) := by
        rw [hlog]
        exact (withIdx_pairwise track 0).filter (dueNow s.fired e)
      refine hpw0.imp_of_mem ?_
      intro a b ha hb hab
      obtain ⟨ha1, ha2, _, _⟩ := hnew a ha
      obtain ⟨hb1, hb2, _, _⟩ := hnew b hb
      rw [ha2, hb2]
      exact hsget a.1 b.1 ha1 hb1 hab
    · intro a ha b hb
      obtain ⟨ha1, ha2, ha3⟩ := hent a ha
      obtain ⟨hb1, hb2, hb3, _⟩ := hnew b hb
      rw [ha2, hb2]
      exact hord a.1 b.1 ha1 hb1 ha3 hb3
  · intro i hi
    rcases (hfired i).mp hi with h | h
    · exact hrange i h
    · rw [List.mem_map] at h
      obtain ⟨q, hq, rfl⟩ := h
      obtain ⟨h1, _, _, _⟩ := hnew q hq
      exact h1
  · intro i j hi hj hif hjf
    have hjold : j ∉ s.fired := fun hc => hjf ((hfired j).mpr (Or.inl hc))
    have hjnew : j ∉ (spawnList env e n (withIdx 0 track) s).2.map Prod.fst :=
      fun hc => hjf ((hfired j).mpr (Or.inr hc))
    rcases (hfired i).mp hif with h | h
    · exact hord i j hi hj h hjold
    · rw [List.mem_map] at h
      obtain ⟨q, hq, hq1⟩ := h
      obtain ⟨hq2, hq3, _, hq5⟩ := hnew q hq
      -- the item at index j was examined this tick and was not due
      have hjitem : (j, track.get ⟨j, hj⟩) ∈ withIdx 0 track := withIdx_zero_mem track j hj
      have hjnotdue : dueNow s.fired e (j, track.get ⟨j, hj⟩) = false := by
        by_contra hc
        have : (j, track.get ⟨j, hj⟩) ∈ (spawnList env e n (withIdx 0 track) s).2 := by
          rw [hlog]
          exact List.mem_filter.mpr ⟨hjitem, by simpa using hc⟩
        exact hjnew (List.mem_map_of_mem Prod.fst this)
      have hjlate : ¬ e ≥ (track.get ⟨j, hj⟩).spawnTime - 10 := by
        intro hge
        have hdtrue : dueNow s.fired e (j, track.get ⟨j, hj⟩) = true := by
          simp only [dueNow, Bool.and_eq_true, decide_eq_true_eq]
          exact ⟨hjold, hge⟩
        rw [hdtrue] at hjnotdue
        simp at hjnotdue
      have hqi : q.2.spawnTime = (track.get ⟨i, hi⟩).spawnTime := by
        have : q.1 = i := hq1
        subst this
        rw [hq3]
      omega

/-- A run of scheduler ticks over a sorted track preserves the
ordering invariant. -/
theorem runSched_ordInv (env : SpawnEnv) (track : List TrackItem) (ts : ℤ)
    (hsort : track.Pairwise (fun a b => a.spawnTime ≤ b.spawnTime)) :
    ∀ (trace : List ℤ) (sl : SchedState × List (ℕ × TrackItem)),
      TrackOrdInv track sl.1 sl.2 →
      TrackOrdInv track (runSched env track ts trace sl).1 (runSched env track ts trace sl).2
  | [], _, h => h
  | now :: rest, sl, h => by
      rw [runSched]
      exact runSched_ordInv env track ts hsort rest _
        (spawnTick_ordInv env (now - ts) now track hsort sl.1 sl.2 h)

/-! ### Claim C8 -/

/-- C8 counterexample: the claim says the scheduler fires events in
non-decreasing spawn-time order even for a track that is not
pre-sorted. The source walks the track array in index order, so for the
unsorted track [(cell 0, offset 100), (cell 1, offset 0)] a single tick
at elapsed 200 fires the offset-100 event before the offset-0 event:
the firing log's spawn offsets are [100, 0], which is decreasing. -/
theorem unsorted_track_out_of_order :
    List.Pairwise (· ≤ ·) ([200] : List ℤ) ∧
    ((runSched ⟨⟨0, 0⟩, fun _ => ⟨0, 0⟩⟩ [⟨0, 100⟩, ⟨1, 0⟩] 0 [200]
        (initSched, [])).2.map (fun p => p.2.spawnTime)) = [100, 0] ∧
    ¬ ((runSched ⟨⟨0, 0⟩, fun _ => ⟨0, 0⟩⟩ [⟨0, 100⟩, ⟨1, 0⟩] 0 [200]
        (initSched, [])).2.Pairwise (fun p q => p.2.spawnTime ≤ q.2.spawnTime)) := by
  decide

/-- C8 amended: for every track that IS sorted by spawn offset (as the
built-in sample track is, being explicitly sorted before use) and every
non-decreasing sequence of scheduler ticks, the scheduler fires events
in non-decreasing spawn-offset order. -/
theorem sorted_track_fires_in_order (env : SpawnEnv) (track : List TrackItem)
    (ts : ℤ) (trace : List ℤ)
    (hsort : track.Pairwise (fun a b => a.spawnTime ≤ b.spawnTime))
    (hmono : List.Pairwise (· ≤ ·) trace) :
    ((runSched env track ts trace (initSched, [])).2).Pairwise
      (fun p q => p.2.spawnTime ≤ q.2.spawnTime) := by
  have hinit : TrackOrdInv track initSched [] := by
    refine ⟨?_, List.Pairwise.nil, ?_, ?_⟩
    · intro p hp
      exact absurd hp (List.not_mem_nil p)
    · intro i hi
      exact absurd hi (List.not_mem_nil i)
    · intro i j _ _ hi _
      exact absurd hi (List.not_mem_nil i)
  exact (runSched_ordInv env track ts hsort trace (initSched, []) hinit).2.1

/-- Witness for sorted_track_fires_in_order: a concrete sorted
two-event track run over two monotone ticks fires in order. -/
theorem sorted_track_fires_in_order_witness :
    (List.Pairwise (fun a b => a.spawnTime ≤ b.spawnTime)
        ([⟨0, 0⟩, ⟨1, 500⟩] : List TrackItem) ∧
      List.Pairwise (· ≤ ·) ([0, 600] : List ℤ)) ∧
    ((runSched ⟨⟨0, 0⟩, fun _ => ⟨0, 0⟩⟩ [⟨0, 0⟩, ⟨1, 500⟩] 0 [0, 600]
        (initSched, [])).2).Pairwise (fun p q => p.2.spawnTime ≤ q.2.spawnTime) :=
  ⟨⟨by decide, by decide⟩,
    sorted_track_fires_in_order ⟨⟨0, 0⟩, fun _ => ⟨0, 0⟩⟩ [⟨0, 0⟩, ⟨1, 500⟩] 0 [0, 600]
      (by decide) (by decide)⟩

/-! ### Judgment lemmas -/

/-- The claim-level eligibility predicate: an unresolved circle whose
hit window contains the activation time. -/
def InWindow (now : ℤ) (c : Circle) : Prop :=
  c.hitStatus = none ∧ c.hitWindowStart ≤ now ∧ now ≤ c.hitWindowEnd

instance (now : ℤ) (c : Circle) : Decidable (InWindow now c) := by
  unfold InWindow
  infer_instance

/-- Filtering commutes with mapping by precomposition. -/
theorem filter_map_comm {α β : Type} (g : α → β) (p : β → Bool) :
    ∀ l : List α, (l.map g).filter p = (l.filter (fun a => p (g a))).map g
  | [] => rfl
  | a :: l => by
      rw [List.map_cons, List.filter_cons, List.filter_cons]
      by_cases h : p (g a)
      · rw [if_pos h, if_pos h, List.map_cons, filter_map_comm g p l]
      · rw [if_neg h, if_neg h, filter_map_comm g p l]

/-- Splitting a mapped list around a distinguished element. -/
theorem map_eq_append_cons {α β : Type} (g : α → β) :
    ∀ (l : List α) (l1 : List β) (x : β) (l2 : List β), l.map g = l1 ++ x :: l2 →
    ∃ a1 a a2, l = a1 ++ a :: a2 ∧ a1.map g = l1 ∧ g a = x ∧ a2.map g = l2
  | [], l1, x, l2, h => by
      exact absurd h.symm (List.append_ne_nil_of_right_ne_nil l1 (List.cons_ne_nil x l2))
  | a :: l, l1, x, l2, h => by
      rw [List.map_cons] at h
      rcases l1 with _ | ⟨b, l1⟩
      · rw [List.nil_append] at h
        exact ⟨[], a, l, rfl, rfl, (List.cons.injEq _ _ _ _ ▸ h).1,
          (List.cons.injEq _ _ _ _ ▸ h).2⟩
      · rw [List.cons_append, List.cons.injEq] at h
        obtain ⟨a1, a', a2, h1, h2, h3, h4⟩ := map_eq_append_cons g l l1 x l2 h.2
        exact ⟨a :: a1, a', a2, by rw [h1, List.cons_append],
          by rw [List.map_cons, h2, h.1], h3, h4⟩

/-- Splitting a filtered list around a distinguished element. -/
theorem filter_eq_append_cons {α : Type} (p : α → Bool) :
    ∀ (l : List α) (l1 : List α) (x : α) (l2 : List α), l.filter p = l1 ++ x :: l2 →
    ∃ b1 b2, l = b1 ++ x :: b2 ∧ b1.filter p = l1 ∧ b2.filter p = l2
  | [], l1, x, l2, h => by
      exact absurd h.symm (List.append_ne_nil_of_right_ne_nil l1 (List.cons_ne_nil x l2))
  | a :: l, l1, x, l2, h => by
      rw [List.filter_cons] at h
      by_cases hp : p a
      · rw [if_pos hp] at h
        rcases l1 with _ | ⟨b, l1⟩
        · rw [List.nil_append, List.cons.injEq] at h
          exact ⟨[], l, by rw [h.1, List.nil_append], rfl, h.2⟩
        · rw [List.cons_append, List.cons.injEq] at h
          obtain ⟨b1, b2, h1, h2, h3⟩ := filter_eq_append_cons p l l1 x l2 h.2
          refine ⟨a :: b1, b2, by rw [h1, List.cons_append], ?_, h3⟩
          rw [List.filter_cons, if_pos hp, h2, h.1]
      · rw [if_neg hp] at h
        obtain ⟨b1, b2, h1, h2, h3⟩ := filter_eq_append_cons p l l1 x l2 h
        refine ⟨a :: b1, b2, by rw [h1, List.cons_append], ?_, h3⟩
        rw [List.filter_cons, if_neg hp, h2]

/-- firstMax returns an element of the candidate list. -/
theorem firstMax_mem : ∀ (ps : List (Circle × ℚ)) (p : Circle × ℚ),
    firstMax p ps ∈ p :: ps
  | [], p => List.mem_singleton.mpr rfl
  | q :: qs, p => by
      have heq : firstMax p (q :: qs) = firstMax (if q.2 > p.2 then q else p) qs := rfl
      rw [heq]
      by_cases hc : q.2 > p.2
      · rw [if_pos hc]
        have h := firstMax_mem qs q
        rcases List.mem_cons.mp h with h | h
        · rw [h]
          exact List.mem_cons_of_mem p (List.mem_cons_self q qs)
        · exact List.mem_cons_of_mem p (List.mem_cons_of_mem q h)
      · rw [if_neg hc]
        have h := firstMax_mem qs p
        rcases List.mem_cons.mp h with h | h
        · rw [h]
          exact List.mem_cons_self p (q :: qs)
        · exact List.mem_cons_of_mem p (List.mem_cons_of_mem q h)

/-- firstMax dominates every candidate. -/
theorem firstMax_max : ∀ (ps : List (Circle × ℚ)) (p : Circle × ℚ),
    ∀ q ∈ p :: ps, q.2 ≤ (firstMax p ps).2
  | [], p, q, hq => by
      rw [List.mem_singleton.mp hq]
      exact le_refl _
  | r :: rs, p, q, hq => by
      have heq : firstMax p (r :: rs) = firstMax (if r.2 > p.2 then r else p) rs := rfl
      rw [heq]
      by_cases hc : r.2 > p.2
      · rw [if_pos hc]
        have hhead : r.2 ≤ (firstMax r rs).2 := firstMax_max rs r r (List.mem_cons_self r rs)
        rcases List.mem_cons.mp hq with rfl | hq
        · exact le_trans (le_of_lt hc) hhead
        rcases List.mem_cons.mp hq with rfl | hq
        · exact hhead
        · exact firstMax_max rs r q (List.mem_cons_of_mem r hq)
      · rw [if_neg hc]
        have hhead : p.2 ≤ (firstMax p rs).2 := firstMax_max rs p p (List.mem_cons_self p rs)
        rcases List.mem_cons.mp hq with rfl | hq
        · exact hhead
        rcases List.mem_cons.mp hq with rfl | hq
        · exact le_trans (le_of_not_lt hc) hhead
        · exact firstMax_max rs p q (List.mem_cons_of_mem p hq)

/-- firstMax is the first of the maxima: the candidate list splits
around it with every earlier element strictly smaller. -/
theorem firstMax_split : ∀ (ps : List (Circle × ℚ)) (p : Circle × ℚ),
    ∃ l1 l2, p :: ps = l1 ++ (firstMax p ps) :: l2 ∧
      ∀ x ∈ l1, x.2 < (firstMax p ps).2
  | [], p => ⟨[], [], rfl, by intro x hx; exact absurd hx (List.not_mem_nil x)⟩
  | q :: qs, p => by
      have heq : firstMax p (q :: qs) = firstMax (if q.2 > p.2 then q else p) qs := rfl
      rw [heq]
      by_cases hc : q.2 > p.2
      · rw [if_pos hc]
        obtain ⟨l1, l2, h1, h2⟩ := firstMax_split qs q
        refine ⟨p :: l1, l2, by rw [List.cons_append, ← h1], ?_⟩
        intro x hx
        rcases List.mem_cons.mp hx with rfl | hx
        · exact lt_of_lt_of_le hc (firstMax_max qs q q (List.mem_cons_self q qs))
        · exact h2 x hx
      · rw [if_neg hc]
        obtain ⟨l1, l2, h1, h2⟩ := firstMax_split qs p
        rcases l1 with _ | ⟨b, l1⟩
        · rw [List.nil_append, List.cons.injEq] at h1
          refine ⟨[], q :: qs, ?_, by intro x hx; exact absurd hx (List.not_mem_nil x)⟩
          rw [List.nil_append, ← h1.1]
        · rw [List.cons_append, List.cons.injEq] at h1
          have hp : p.2 < (firstMax p qs).2 := by
            have hb := h2 b (List.mem_cons_self b l1)
            rw [← h1.1] at hb
            exact hb
          refine ⟨p :: q :: l1, l2, ?_, ?_⟩
          · rw [List.cons_append, List.cons_append, ← h1.2]
          · intro x hx
            rcases List.mem_cons.mp hx with rfl | hx
            · exact hp
            rcases List.mem_cons.mp hx with rfl | hx
            · exact lt_of_le_of_lt (le_of_not_lt hc) hp
            · exact h2 x (List.mem_cons_of_mem b hx)

/-- The combined condition of the two-stage filter: a circle survives
both filters exactly when it is unresolved and inside its window. -/
def fireB (now : ℤ) (c : Circle) : Bool :=
  unhitB now c && windowB now (sizedPair now c)

/-- The two-stage filter condition coincides with the claim-level
in-window predicate. -/
theorem fireB_iff (now : ℤ) (c : Circle) : fireB now c = true ↔ InWindow now c := by
  simp only [fireB, unhitB, windowB, sizedPair, InWindow, Bool.and_eq_true,
    decide_eq_true_eq, ge_iff_le]
  tauto

/-- The in-window pair list of handleCellPress is the image of the
circles passing the combined filter. -/
theorem pressCell_scrutinee (now : ℤ) (l : List Circle) :
    ((l.filter (unhitB now)).map (sizedPair now)).filter (windowB now) =
      (l.filter (fireB now)).map (sizedPair now) := by
  rw [filter_map_comm (sizedPair now) (windowB now) (l.filter (unhitB now)),
    List.filter_filter]
  congr 1
  apply List.filter_congr
  intro c _
  show (windowB now (sizedPair now c) && unhitB now c) =
    (unhitB now c && windowB now (sizedPair now c))
  exact Bool.and_comm _ _

/-- markHit leaves every circle with a different id untouched. -/
theorem map_markHit_id (now : ℤ) (w : Circle × ℚ) :
    ∀ (l : List Circle), (∀ c ∈ l, c.id ≠ w.1.id) → l.map (markHit now w) = l
  | [], _ => rfl
  | c :: l, h => by
      rw [List.map_cons, map_markHit_id now w l (fun x hx => h x (List.mem_cons_of_mem c hx)),
        markHit, if_neg (h c (List.mem_cons_self c l))]

/-- A pressed cell whose index differs is returned unchanged. -/
theorem pressCell_other (idx : ℕ) (now : ℤ) (cell : GridCell) (h : cell.index ≠ idx) :
    pressCell idx now cell = cell := by
  unfold pressCell
  rw [if_pos h]

/-- Case analysis of pressCell on the pressed cell: if no unresolved
circle is inside its window the cell is unchanged; otherwise the
circles split around a winner — an in-window circle of maximal growth,
the first such in insertion order — which alone is resolved as a
correct hit, every other circle being returned unchanged. -/
theorem pressCell_cases (idx : ℕ) (now : ℤ) (cell : GridCell)
    (hidx : cell.index = idx) (hid : (cell.circles.map Circle.id).Nodup) :
    ((∀ c ∈ cell.circles, ¬ InWindow now c) → pressCell idx now cell = cell) ∧
    ((∃ c ∈ cell.circles, InWindow now c) →
      ∃ w l1 l2, cell.circles = l1 ++ w :: l2 ∧ InWindow now w ∧
        (∀ c ∈ cell.circles, InWindow now c → growthAt now c ≤ growthAt now w) ∧
        (∀ c ∈ l1, InWindow now c → growthAt now c < growthAt now w) ∧
        pressCell idx now cell = { cell with circles :=
          l1 ++ ({ w with
                  hitStatus := some HitStatus.correct,
                  hitTime := some now,
                  hitRating := some (calculateHitRating now w.perfectTime),
                  size := growthAt now w,
                  currentPosition := w.targetPosition }) :: l2 }) := by
  have hnotne : ¬ cell.index ≠ idx := not_not_intro hidx
  constructor
  · intro hno
    have hFnil : cell.circles.filter (fireB now) = [] := by
      rw [List.filter_eq_nil_iff]
      intro c hc hFc
      exact hno c hc ((fireB_iff now c).mp hFc)
    unfold pressCell
    rw [if_neg hnotne]
    by_cases hu : (cell.circles.filter (unhitB now)).isEmpty
    · rw [if_pos hu]
    · rw [if_neg hu, pressCell_scrutinee, hFnil, List.map_nil]
  · intro hex
    obtain ⟨c0, hc0mem, hc0win⟩ := hex
    have hc0F : fireB now c0 = true := (fireB_iff now c0).mpr hc0win
    have hc0unhit : unhitB now c0 = true := by
      have h' := hc0F
      rw [fireB, Bool.and_eq_true] at h'
      exact h'.1
    have hu : ¬ (cell.circles.filter (unhitB now)).isEmpty = true := by
      intro h
      rw [List.isEmpty_iff] at h
      have hm : c0 ∈ cell.circles.filter (unhitB now) :=
        List.mem_filter.mpr ⟨hc0mem, hc0unhit⟩
      rw [h] at hm
      exact absurd hm (List.not_mem_nil c0)
    have hFne : cell.circles.filter (fireB now) ≠ [] := by
      intro h
      have hm : c0 ∈ cell.circles.filter (fireB now) :=
        List.mem_filter.mpr ⟨hc0mem, hc0F⟩
      rw [h] at hm
      exact absurd hm (List.not_mem_nil c0)
    rcases hflt : cell.circles.filter (fireB now) with _ | ⟨d0, drest⟩
    · exact absurd hflt hFne
    obtain ⟨L1, L2, hsplit, hstrict⟩ := firstMax_split (drest.map (sizedPair now)) (sizedPair now d0)
    have hsplit' : (d0 :: drest).map (sizedPair now) =
        L1 ++ (firstMax (sizedPair now d0) (drest.map (sizedPair now))) :: L2 := by
      rw [List.map_cons]
      exact hsplit
    obtain ⟨a1, a, a2, hda, hm1, hga, hm2⟩ :=
      map_eq_append_cons (sizedPair now) (d0 :: drest) L1 _ L2 hsplit'
    have hfsplit : cell.circles.filter (fireB now) = a1 ++ a :: a2 := by
      rw [hflt]
      exact hda
    obtain ⟨b1, b2, hcirc, hb1, hb2⟩ :=
      filter_eq_append_cons (fireB now) cell.circles a1 a a2 hfsplit
    have hamemF : a ∈ cell.circles.filter (fireB now) := by
      rw [hfsplit]
      exact List.mem_append_right a1 (List.mem_cons_self a a2)
    have haF : fireB now a = true := List.of_mem_filter hamemF
    have hawin : InWindow now a := (fireB_iff now a).mp haF
    have hw1 : a = (firstMax (sizedPair now d0) (drest.map (sizedPair now))).1 := by
      rw [← hga]
      rfl
    have hw2 : (firstMax (sizedPair now d0) (drest.map (sizedPair now))).2 =
        growthAt now a := by
      rw [← hga]
      rfl
    have hmaxc : ∀ c ∈ cell.circles, InWindow now c → growthAt now c ≤ growthAt now a := by
      intro c hc hcwin
      have hcF : fireB now c = true := (fireB_iff now c).mpr hcwin
      have hmem1 : c ∈ d0 :: drest := by
        have hm : c ∈ cell.circles.filter (fireB now) := List.mem_filter.mpr ⟨hc, hcF⟩
        rw [hflt] at hm
        exact hm
      have hmem2 : sizedPair now c ∈ (sizedPair now d0) :: drest.map (sizedPair now) := by
        have := List.mem_map_of_mem (sizedPair now) hmem1
        rw [List.map_cons] at this
        exact this
      have hle := firstMax_max (drest.map (sizedPair now)) (sizedPair now d0)
        (sizedPair now c) hmem2
      rw [hw2] at hle
      exact hle
    have hstrictc : ∀ c ∈ b1, InWindow now c → growthAt now c < growthAt now a := by
      intro c hc hcwin
      have hcF : fireB now c = true := (fireB_iff now c).mpr hcwin
      have hca1 : c ∈ a1 := by
        rw [← hb1]
        exact List.mem_filter.mpr ⟨hc, hcF⟩
      have hcL1 : sizedPair now c ∈ L1 := by
        rw [← hm1]
        exact List.mem_map_of_mem (sizedPair now) hca1
      have := hstrict (sizedPair now c) hcL1
      rw [hw2] at this
      exact this
    -- ids of the two side lists differ from the winner's id
    have hidsplit := hid
    rw [hcirc, List.map_append, List.map_cons, List.nodup_append] at hidsplit
    have hneq1 : ∀ c ∈ b1, c.id ≠ a.id := by
      intro c hc hceq
      have h1 : c.id ∈ b1.map Circle.id := List.mem_map_of_mem Circle.id hc
      have h2 : c.id ∈ a.id :: b2.map Circle.id := by
        rw [hceq]
        exact List.mem_cons_self _ _
      exact hidsplit.2.2 h1 h2
    have hneq2 : ∀ c ∈ b2, c.id ≠ a.id := by
      intro c hc hceq
      have h2 : a.id ∈ b2.map Circle.id := by
        rw [← hceq]
        exact List.mem_map_of_mem Circle.id hc
      exact (List.nodup_cons.mp hidsplit.2.1).1 h2
    have hmark : markHit now (firstMax (sizedPair now d0) (drest.map (sizedPair now))) a =
        { a with
          hitStatus := some HitStatus.correct,
          hitTime := some now,
          hitRating := some (calculateHitRating now a.perfectTime),
          size := growthAt now a,
          currentPosition := a.targetPosition } := by
      rw [markHit, if_pos (by rw [← hw1]), ← hw1, hw2]
    have hpc : pressCell idx now cell = { cell with
        circles := cell.circles.map (markHit now (firstMax (sizedPair now d0) (drest.map (sizedPair now)))) } := by
      unfold pressCell
      rw [if_neg hnotne, if_neg hu, pressCell_scrutinee, hflt, List.map_cons]
    refine ⟨a, b1, b2, hcirc, hawin, hmaxc, hstrictc, ?_⟩
    rw [hpc]
    have hcongr : cell.circles.map (markHit now (firstMax (sizedPair now d0) (drest.map (sizedPair now)))) =
        b1 ++ ({ a with
          hitStatus := some HitStatus.correct,
          hitTime := some now,
          hitRating := some (calculateHitRating now a.perfectTime),
          size := growthAt now a,
          currentPosition := a.targetPosition }) :: b2 := by
      rw [hcirc, List.map_append, List.map_cons, hmark,
        map_markHit_id now _ b1 (fun c hc hc' => hneq1 c hc (by rw [hc', ← hw1])),
        map_markHit_id now _ b2 (fun c hc hc' => hneq2 c hc (by rw [hc', ← hw1]))]
    rw [hcongr]

/-! ### Claim C1 -/

/-- C1: a cell activation either changes nothing — exactly when no
unresolved circle of that cell has its hit window open — or resolves
exactly one circle: an in-window circle of maximal current growth,
first among equals in insertion order, becomes a correct hit with its
rating, while every other circle of the cell and every other cell of
the grid is returned unchanged. -/
theorem judgment_selects_unique_winner (idx : ℕ) (now : ℤ) (cells : List GridCell)
    (hid : ∀ cell ∈ cells, (cell.circles.map Circle.id).Nodup) :
    handleCellPress idx now cells = cells.map (pressCell idx now) ∧
    (∀ cell ∈ cells, cell.index ≠ idx → pressCell idx now cell = cell) ∧
    (∀ cell ∈ cells, cell.index = idx →
      ((∀ c ∈ cell.circles, ¬ InWindow now c) → pressCell idx now cell = cell) ∧
      ((∃ c ∈ cell.circles, InWindow now c) →
        ∃ w l1 l2, cell.circles = l1 ++ w :: l2 ∧ InWindow now w ∧ w.hitStatus = none ∧
          (∀ c ∈ cell.circles, InWindow now c → growthAt now c ≤ growthAt now w) ∧
          (∀ c ∈ l1, InWindow now c → growthAt now c < growthAt now w) ∧
          pressCell idx now cell = { cell with
            circles := l1 ++ ({ w with
              hitStatus := some HitStatus.correct,
              hitTime := some now,
              hitRating := some (calculateHitRating now w.perfectTime),
              size := growthAt now w,
              currentPosition := w.targetPosition }) :: l2 })) := by
  refine ⟨rfl, fun cell _ h => pressCell_other idx now cell h, fun cell hcell hcidx => ?_⟩
  have h := pressCell_cases idx now cell hcidx (hid cell hcell)
  refine ⟨h.1, fun hex => ?_⟩
  obtain ⟨w, l1, l2, h1, h2, h3, h4, h5⟩ := h.2 hex
  exact ⟨w, l1, l2, h1, h2, h2.1, h3, h4, h5⟩

/-- A sample unresolved circle: spawned at time 0 in cell 3 with the
default growth duration. -/
def sampleA : Circle :=
  { id := ⟨3, 0, 0⟩
    size := 0
    startTime := 0
    duration := 1000
    hitStatus := none
    hitTime := none
    hitRating := none
    hitWindowStart := 850
    hitWindowEnd := 1200
    perfectTime := 1000
    cellIndex := 3
    spawnPosition := ⟨0, 0⟩
    targetPosition := ⟨0, 0⟩
    currentPosition := ⟨0, 0⟩ }

/-- A second sample circle in the same cell, spawned 300 ms later. -/
def sampleB : Circle :=
  { id := ⟨3, 300, 1⟩
    size := 0
    startTime := 300
    duration := 1000
    hitStatus := none
    hitTime := none
    hitRating := none
    hitWindowStart := 1150
    hitWindowEnd := 1500
    perfectTime := 1300
    cellIndex := 3
    spawnPosition := ⟨0, 0⟩
    targetPosition := ⟨0, 0⟩
    currentPosition := ⟨0, 0⟩ }

/-- Witness for judgment_selects_unique_winner: a one-cell grid holding
two overlapping unresolved circles, pressed at time 1160 when both
windows are open. -/
theorem judgment_selects_unique_winner_witness :
    (∀ cell ∈ [(⟨3, [sampleA, sampleB]⟩ : GridCell)], (cell.circles.map Circle.id).Nodup) ∧
    (handleCellPress 3 1160 [(⟨3, [sampleA, sampleB]⟩ : GridCell)] =
      [(⟨3, [sampleA, sampleB]⟩ : GridCell)].map (pressCell 3 1160) ∧
    (∀ cell ∈ [(⟨3, [sampleA, sampleB]⟩ : GridCell)], cell.index ≠ 3 →
      pressCell 3 1160 cell = cell) ∧
    (∀ cell ∈ [(⟨3, [sampleA, sampleB]⟩ : GridCell)], cell.index = 3 →
      ((∀ c ∈ cell.circles, ¬ InWindow 1160 c) → pressCell 3 1160 cell = cell) ∧
      ((∃ c ∈ cell.circles, InWindow 1160 c) →
        ∃ w l1 l2, cell.circles = l1 ++ w :: l2 ∧ InWindow 1160 w ∧ w.hitStatus = none ∧
          (∀ c ∈ cell.circles, InWindow 1160 c → growthAt 1160 c ≤ growthAt 1160 w) ∧
          (∀ c ∈ l1, InWindow 1160 c → growthAt 1160 c < growthAt 1160 w) ∧
          pressCell 3 1160 cell = { cell with
            circles := l1 ++ ({ w with
              hitStatus := some HitStatus.correct,
              hitTime := some 1160,
              hitRating := some (calculateHitRating 1160 w.perfectTime),
              size := growthAt 1160 w,
              currentPosition := w.targetPosition }) :: l2 }))) :=
  ⟨by decide, judgment_selects_unique_winner 3 1160 [⟨3, [sampleA, sampleB]⟩] (by decide)⟩

/-! ### Claim C4 -/

/-- C4: a resolved circle is frozen: the per-frame advance only snaps
its position, leaving size, hitStatus, hitTime and hitRating untouched,
and a cell activation either leaves the whole cell unchanged or
resolves a circle whose hitStatus was null, leaving every other circle
(in particular every resolved one) exactly in place; so, once set, a
resolution never changes and never reverts to unresolved. -/
theorem resolution_monotone (now : ℤ) :
    (∀ c : Circle, c.hitStatus ≠ none →
      advanceCircle now c = { c with currentPosition := c.targetPosition }) ∧
    (∀ (idx : ℕ) (cell : GridCell), (cell.circles.map Circle.id).Nodup →
      pressCell idx now cell = cell ∨
      ∃ w l1 l2, cell.circles = l1 ++ w :: l2 ∧ w.hitStatus = none ∧
        pressCell idx now cell = { cell with
          circles := l1 ++ ({ w with
            hitStatus := some HitStatus.correct,
            hitTime := some now,
            hitRating := some (calculateHitRating now w.perfectTime),
            size := growthAt now w,
            currentPosition := w.targetPosition }) :: l2 }) := by
  constructor
  · intro c h
    rw [advanceCircle, if_pos h]
  · intro idx cell hid
    by_cases hcidx : cell.index = idx
    · by_cases hex : ∃ c ∈ cell.circles, InWindow now c
      · obtain ⟨w, l1, l2, h1, h2, _, _, h5⟩ := (pressCell_cases idx now cell hcidx hid).2 hex
        exact Or.inr ⟨w, l1, l2, h1, h2.1, h5⟩
      · push_neg at hex
        exact Or.inl ((pressCell_cases idx now cell hcidx hid).1 hex)
    · exact Or.inl (pressCell_other idx now cell hcidx)

/-- A resolved sample circle: sampleA after being hit at its perfect
time. -/
def sampleHit : Circle :=
  { sampleA with
    size := 1
    hitStatus := some HitStatus.correct
    hitTime := some 1000
    hitRating := some HitRating.perfect }

/-- Witness for resolution_monotone: the per-frame advance at a later
time leaves the resolved sample circle's logical state frozen, and a
press on a cell holding only that circle changes nothing. -/
theorem resolution_monotone_witness :
    (sampleHit.hitStatus ≠ none ∧
      ((⟨3, [sampleHit]⟩ : GridCell).circles.map Circle.id).Nodup) ∧
    advanceCircle 1450 sampleHit = { sampleHit with
      currentPosition := sampleHit.targetPosition } ∧
    (pressCell 3 1450 (⟨3, [sampleHit]⟩ : GridCell) = (⟨3, [sampleHit]⟩ : GridCell) ∨
      ∃ w l1 l2, (⟨3, [sampleHit]⟩ : GridCell).circles = l1 ++ w :: l2 ∧
        w.hitStatus = none ∧
        pressCell 3 1450 (⟨3, [sampleHit]⟩ : GridCell) = { (⟨3, [sampleHit]⟩ : GridCell) with
          circles := l1 ++ ({ w with
            hitStatus := some HitStatus.correct,
            hitTime := some 1450,
            hitRating := some (calculateHitRating 1450 w.perfectTime),
            size := growthAt 1450 w,
            currentPosition := w.targetPosition }) :: l2 }) :=
  ⟨⟨by decide, by decide⟩,
    (resolution_monotone 1450).1 sampleHit (by decide),
    (resolution_monotone 1450).2 3 ⟨3, [sampleHit]⟩ (by decide)⟩

/-! ### Claim C6 -/

/-- A trivial rendering environment for concrete runs: all geometry at
the origin. -/
def testEnv : SpawnEnv := ⟨⟨0, 0⟩, fun _ => ⟨0, 0⟩⟩

/-- C6: the per-frame advance turns an unresolved circle into a miss
(stamped with the current time) exactly when the frame time exceeds
hitWindowEnd + 50 ms, and otherwise leaves its resolution untouched; a
resolved circle is kept by the eviction filter exactly while less than
100 ms have passed since its resolution; and in the end-to-end
one-event scenario with default durations and no activation, the
circle spawned at time 0 is missed by the frame at 1400 ms (with
hitTime 1400) and evicted by the frame at 1500 ms. -/
theorem miss_and_eviction (now : ℤ) (c : Circle) :
    (c.hitStatus = none → now > c.hitWindowEnd + 50 →
      advanceCircle now c = { c with hitStatus := some HitStatus.miss, hitTime := some now }) ∧
    (c.hitStatus = none → ¬ now > c.hitWindowEnd + 50 →
      (advanceCircle now c).hitStatus = none ∧ (advanceCircle now c).hitTime = c.hitTime) ∧
    (∀ t : ℤ, c.hitTime = some t → (keepCircle now c = true ↔ now - t < 100)) ∧
    (runEvents testEnv [⟨3, 0⟩] 0 [.tick 0, .tick 1400] initSched).cells.map
      (fun cell => cell.circles.map Circle.hitStatus) =
      [[], [], [], [some HitStatus.miss], [], [], [], [], []] ∧
    (runEvents testEnv [⟨3, 0⟩] 0 [.tick 0, .tick 1400] initSched).cells.map
      (fun cell => cell.circles.map Circle.hitTime) =
      [[], [], [], [some 1400], [], [], [], [], []] ∧
    (runEvents testEnv [⟨3, 0⟩] 0 [.tick 0, .tick 1400, .tick 1500] initSched).cells.map
      GridCell.circles = [[], [], [], [], [], [], [], [], []] := by
  refine ⟨fun h1 h2 => ?_, fun h1 h2 => ?_, fun t ht => ?_, by decide, by decide, by decide⟩
  · rw [advanceCircle, if_neg (not_not_intro h1), if_pos h2]
  · rw [advanceCircle, if_neg (not_not_intro h1), if_neg h2]
    exact ⟨h1, rfl⟩
  · simp [keepCircle, ht, HIT_FEEDBACK_DURATION]

/-- Witness for miss_and_eviction: the sample circle, unresolved with
window end 1200, is turned into a miss by an advance at 1301. -/
theorem miss_and_eviction_witness :
    (sampleA.hitStatus = none ∧ (1301 : ℤ) > sampleA.hitWindowEnd + 50) ∧
    advanceCircle 1301 sampleA =
      { sampleA with hitStatus := some HitStatus.miss, hitTime := some 1301 } :=
  ⟨⟨by decide, by decide⟩, (miss_and_eviction 1301 sampleA).1 (by decide) (by decide)⟩

/-! ### Claim C10: reachable-state size invariant -/

/-- The per-circle invariant maintained by every engine step up to
time t: size in [0, 1], spawn in the past, the default growth
duration, and resolution kind and timestamp set together. -/
def CircleTimeInv (t : ℤ) (c : Circle) : Prop :=
  0 ≤ c.size ∧ c.size ≤ 1 ∧ c.startTime ≤ t ∧ c.duration = GROWTH_DURATION ∧
    (c.hitStatus = none ↔ c.hitTime = none)

/-- The grid-wide form of the circle invariant. -/
def StateTimeInv (t : ℤ) (s : SchedState) : Prop :=
  ∀ cell ∈ s.cells, ∀ c ∈ cell.circles, CircleTimeInv t c

/-- The circle invariant is monotone in the time bound. -/
theorem CircleTimeInv.mono {t t' : ℤ} (h : t ≤ t') {c : Circle}
    (hc : CircleTimeInv t c) : CircleTimeInv t' c :=
  ⟨hc.1, hc.2.1, le_trans hc.2.2.1 h, hc.2.2.2⟩

/-- A freshly spawned circle satisfies the invariant at its spawn
time. -/
theorem mkCircle_timeInv (env : SpawnEnv) (item : TrackItem) (index : ℕ) (now : ℤ) :
    CircleTimeInv now (mkCircle env item index now) := by
  refine ⟨le_refl 0, ?_, le_refl now, rfl, by simp [mkCircle]⟩
  show (0 : ℚ) ≤ 1
  norm_num

/-- Spawning preserves the grid invariant at the spawn time. -/
theorem processItem_timeInv (env : SpawnEnv) (e now : ℤ) (s : SchedState)
    (p : ℕ × TrackItem) (h : StateTimeInv now s) :
    StateTimeInv now ⟨(processItem env e now s p).1.fired,
      (processItem env e now s p).1.cells⟩ := by
  intro cell hcell c hc
  revert hcell
  unfold processItem
  split_ifs with h1 h2 h3
  · exact fun hcell => h cell hcell c hc
  · exact fun hcell => h cell hcell c hc
  · intro hcell
    simp only [List.mem_map] at hcell
    obtain ⟨cell0, hcell0, rfl⟩ := hcell
    by_cases hidx : (cell0.index : ℤ) = p.2.cellIndex
    · rw [if_pos hidx] at hc
      simp only [List.mem_append, List.mem_singleton] at hc
      rcases hc with hc | rfl
      · exact h cell0 hcell0 c hc
      · exact mkCircle_timeInv env p.2 p.1 now
    · rw [if_neg hidx] at hc
      exact h cell0 hcell0 c hc
  · exact fun hcell => h cell hcell c hc

/-- A whole forEach spawning pass preserves the grid invariant. -/
theorem spawnList_timeInv (env : SpawnEnv) (e now : ℤ) :
    ∀ (L : List (ℕ × TrackItem)) (s : SchedState), StateTimeInv now s →
      StateTimeInv now (spawnList env e now L s).1
  | [], _, h => h
  | p :: L, s, h => by
      rw [spawnList]
      exact spawnList_timeInv env e now L (processItem env e now s p).1
        (fun cell hcell c hc =>
          processItem_timeInv env e now s p h cell hcell c hc)

/-- The per-frame circle update preserves the invariant at the frame
time. -/
theorem advanceCircle_timeInv (now : ℤ) (c : Circle) (h : CircleTimeInv now c) :
    CircleTimeInv now (advanceCircle now c) := by
  obtain ⟨h1, h2, h3, h4, h5⟩ := h
  unfold advanceCircle
  split_ifs with hr hm
  · exact ⟨h1, h2, h3, h4, h5⟩
  · refine ⟨h1, h2, h3, h4, by simp⟩
  · have hb := growthAt_bounds now c h3 h4
    exact ⟨hb.1, hb.2, h3, h4, h5⟩

/-- The eviction filter preserves the grid invariant, and updateCells
preserves it wholesale. -/
theorem updateCells_timeInv (now : ℤ) (s : SchedState) (h : StateTimeInv now s) :
    StateTimeInv now ⟨s.fired, updateCells now s.cells⟩ := by
  intro cell hcell c hc
  unfold updateCells at hcell
  simp only [List.mem_map] at hcell
  obtain ⟨cell0, hcell0, rfl⟩ := hcell
  simp only [List.mem_filter, List.mem_map] at hc
  obtain ⟨⟨c0, hc0, rfl⟩, _⟩ := hc
  exact advanceCircle_timeInv now c0 (h cell0 hcell0 c0 hc0)

/-- Every pressCell result shape: either the cell unchanged, or the
winner map applied with a winner pair drawn from the cell's own
circles carrying its own growth. -/
theorem pressCell_shape (idx : ℕ) (now : ℤ) (cell : GridCell) :
    pressCell idx now cell = cell ∨
    ∃ w : Circle × ℚ, w.1 ∈ cell.circles ∧ w.2 = growthAt now w.1 ∧
      pressCell idx now cell =
        { cell with circles := cell.circles.map (markHit now w) } := by
  unfold pressCell
  split_ifs with h1 h2
  · exact Or.inl rfl
  · exact Or.inl rfl
  · rw [pressCell_scrutinee]
    rcases hflt : cell.circles.filter (fireB now) with _ | ⟨d0, drest⟩
    · rw [List.map_nil]
      exact Or.inl rfl
    · rw [List.map_cons]
      have hwmem := firstMax_mem (drest.map (sizedPair now)) (sizedPair now d0)
      have hwmem' : firstMax (sizedPair now d0) (drest.map (sizedPair now)) ∈
          (d0 :: drest).map (sizedPair now) := by
        rw [List.map_cons]
        exact hwmem
      obtain ⟨cw, hcw, hgw⟩ := List.mem_map.mp hwmem'
      have hcwmem : cw ∈ cell.circles := by
        have : cw ∈ cell.circles.filter (fireB now) := by
          rw [hflt]
          exact hcw
        exact List.mem_of_mem_filter this
      refine Or.inr ⟨firstMax (sizedPair now d0) (drest.map (sizedPair now)),
        ?_, ?_, rfl⟩
      · rw [← hgw]
        exact hcwmem
      · rw [← hgw]
        rfl

/-- A cell press preserves the grid invariant at the press time. -/
theorem pressCell_timeInv (idx : ℕ) (now : ℤ) (cell : GridCell)
    (h : ∀ c ∈ cell.circles, CircleTimeInv now c) :
    ∀ c' ∈ (pressCell idx now cell).circles, CircleTimeInv now c' := by
  rcases pressCell_shape idx now cell with hres | ⟨w, hw1, hw2, hres⟩
  · rw [hres]
    exact h
  · rw [hres]
    intro c' hc'
    simp only [List.mem_map] at hc'
    obtain ⟨c, hc, rfl⟩ := hc'
    rw [markHit]
    split_ifs with hcid
    · have hinvw := h w.1 hw1
      have hb := growthAt_bounds now w.1 hinvw.2.2.1 hinvw.2.2.2.1
      have hinvc := h c hc
      exact ⟨hw2 ▸ hb.1, hw2 ▸ hb.2, hinvc.2.2.1, hinvc.2.2.2.1, by simp⟩
    · exact h c hc

/-- One engine step preserves the grid invariant, advancing the time
bound to the step's own time. -/
theorem stepEvent_timeInv (env : SpawnEnv) (track : List TrackItem) (ts : ℤ)
    (s : SchedState) (e : GEvent) (t : ℤ)
    (hs : StateTimeInv t s) (ht : t ≤ e.time) :
    StateTimeInv (e.time) (stepEvent env track ts s e) := by
  cases e with
  | tick now =>
      have hs' : StateTimeInv now s := fun cell hcell c hc =>
        (hs cell hcell c hc).mono ht
      have h1 : StateTimeInv now (spawnFromTrack env track ts now s).1 :=
        spawnList_timeInv env (now - ts) now (withIdx 0 track) s hs'
      exact updateCells_timeInv now (spawnFromTrack env track ts now s).1 h1
  | press idx now =>
      intro cell hcell c hc
      simp only [stepEvent, handleCellPress, List.mem_map] at hcell
      obtain ⟨cell0, hcell0, rfl⟩ := hcell
      exact pressCell_timeInv idx now cell0
        (fun c0 hc0 => (hs cell0 hcell0 c0 hc0).mono ht) c hc

/-- Running a time-ordered event trace preserves the grid invariant up
to any upper bound of the trace. -/
theorem runEvents_timeInv (env : SpawnEnv) (track : List TrackItem) (ts : ℤ) :
    ∀ (trace : List GEvent) (s : SchedState) (t : ℤ),
      StateTimeInv t s → (∀ e ∈ trace, t ≤ GEvent.time e) →
      trace.Pairwise (fun a b => GEvent.time a ≤ GEvent.time b) →
      ∀ t', (∀ e ∈ trace, GEvent.time e ≤ t') → t ≤ t' →
      StateTimeInv t' (runEvents env track ts trace s)
  | [], s, t, hs, _, _, t', _, htt' =>
      fun cell hcell c hc => (hs cell hcell c hc).mono htt'
  | e :: rest, s, t, hs, hlo, hpw, t', hhi, _ => by
      rw [runEvents]
      have hpw' := List.pairwise_cons.mp hpw
      exact runEvents_timeInv env track ts rest (stepEvent env track ts s e) (GEvent.time e)
        (stepEvent_timeInv env track ts s e t hs (hlo e (List.mem_cons_self e rest)))
        (fun e' he' => hpw'.1 e' he') hpw'.2 t'
        (fun e' he' => hhi e' (List.mem_cons_of_mem e he'))
        (hhi e (List.mem_cons_self e rest))

/-- The initial grid satisfies the invariant at any time. -/
theorem initSched_timeInv (t : ℤ) : StateTimeInv t initSched := by
  intro cell hcell c hc
  have h' : cell ∈ (List.range (GRID_SIZE * GRID_SIZE)).map
      (fun i => (⟨i, []⟩ : GridCell)) := hcell
  rw [List.mem_map] at h'
  obtain ⟨i, _, rfl⟩ := h'
  exact absurd hc (List.not_mem_nil c)

/-- Folded minimum is below its base. -/
theorem foldr_min_le_init : ∀ (l : List ℤ) (b : ℤ), l.foldr min b ≤ b
  | [], b => le_refl b
  | x :: l, b => le_trans (min_le_right x _) (foldr_min_le_init l b)

/-- Folded minimum is below every member. -/
theorem foldr_min_le_mem : ∀ (l : List ℤ) (b x : ℤ), x ∈ l → l.foldr min b ≤ x
  | y :: l, b, x, hx => by
      rcases List.mem_cons.mp hx with rfl | hx
      · exact min_le_left x _
      · exact le_trans (min_le_right y _) (foldr_min_le_mem l b x hx)

/-- keepCircle on an unresolved circle tests only the size. -/
theorem keepCircle_none (now : ℤ) (c : Circle) (h : c.hitTime = none) :
    keepCircle now c = decide (c.size ≤ mkRat 11 10) := by
  unfold keepCircle
  rw [h]

/-- keepCircle on a resolved circle tests only the feedback age. -/
theorem keepCircle_some (now : ℤ) (c : Circle) (t : ℤ) (h : c.hitTime = some t) :
    keepCircle now c = decide (now - t < HIT_FEEDBACK_DURATION) := by
  unfold keepCircle
  rw [h]

/-- An unresolved circle still inside its grace period keeps its
resolution fields and recomputes its size to the current growth. -/
theorem advanceCircle_unres_live (now : ℤ) (c : Circle)
    (hres : c.hitStatus = none) (hm : ¬ now > c.hitWindowEnd + 50) :
    (advanceCircle now c).hitTime = c.hitTime ∧
    (advanceCircle now c).hitStatus = c.hitStatus ∧
    (advanceCircle now c).size = growthAt now c := by
  unfold advanceCircle
  rw [if_neg (not_not_intro hres), if_neg hm]
  exact ⟨rfl, rfl, rfl⟩

/-- Under the invariant, the advance-then-filter pipeline never
removes an unresolved circle, and any removed circle is resolved and
past its feedback period. -/
theorem circle_eviction_char (now : ℤ) (c : Circle) (hinv : CircleTimeInv now c) :
    (c.hitStatus = none → keepCircle now (advanceCircle now c) = true) ∧
    (keepCircle now (advanceCircle now c) = false →
      (advanceCircle now c).hitStatus ≠ none ∧
      ∃ h : ℤ, (advanceCircle now c).hitTime = some h ∧ now - h ≥ 100) := by
  obtain ⟨h1, h2, h3, h4, h5⟩ := hinv
  by_cases hres : c.hitStatus = none
  · have htime : c.hitTime = none := h5.mp hres
    by_cases hm : now > c.hitWindowEnd + 50
    · have hadv : advanceCircle now c =
          { c with hitStatus := some HitStatus.miss, hitTime := some now } := by
        unfold advanceCircle
        rw [if_neg (not_not_intro hres), if_pos hm]
      have hkeep : keepCircle now (advanceCircle now c) = true := by
        rw [hadv, keepCircle_some now _ now rfl, decide_eq_true_eq, HIT_FEEDBACK_DURATION]
        omega
      refine ⟨fun _ => hkeep, fun hf => ?_⟩
      rw [hkeep] at hf
      exact absurd hf (by decide)
    · have hlive := advanceCircle_unres_live now c hres hm
      have htime' : (advanceCircle now c).hitTime = none := by rw [hlive.1, htime]
      have hkeep : keepCircle now (advanceCircle now c) = true := by
        rw [keepCircle_none now _ htime', decide_eq_true_eq, hlive.2.2]
        exact le_trans (ratMin_le_right _ _) (by decide)
      refine ⟨fun _ => hkeep, fun hf => ?_⟩
      rw [hkeep] at hf
      exact absurd hf (by decide)
  · have hadv : advanceCircle now c = { c with currentPosition := c.targetPosition } := by
      unfold advanceCircle
      rw [if_pos hres]
    obtain ⟨ht, hht⟩ : ∃ t, c.hitTime = some t := by
      rcases hc : c.hitTime with _ | t
      · exact absurd (h5.mpr hc) hres
      · exact ⟨t, rfl⟩
    have hht' : (advanceCircle now c).hitTime = some ht := by
      rw [hadv]
      exact hht
    have hstat : (advanceCircle now c).hitStatus ≠ none := by
      rw [hadv]
      exact hres
    refine ⟨fun hcontra => absurd hcontra hres, fun hkeep => ?_⟩
    rw [keepCircle_some now _ ht hht', decide_eq_false_iff_not, not_lt,
      HIT_FEEDBACK_DURATION] at hkeep
    exact ⟨hstat, ht, hht', by omega⟩

/-- C10: in every state reachable by a time-ordered event trace, every
circle's size lies in [0, 1]; consequently, at any later frame the
eviction test never removes an unresolved circle, and the only way a
circle leaves its cell is by first acquiring a resolution timestamp
and then outliving the 100 ms feedback period. -/
theorem reachable_size_invariant (env : SpawnEnv) (track : List TrackItem)
    (ts : ℤ) (trace : List GEvent)
    (hpw : trace.Pairwise (fun a b => GEvent.time a ≤ GEvent.time b))
    (now : ℤ) (hnow : ∀ e ∈ trace, GEvent.time e ≤ now) :
    ∀ cell ∈ (runEvents env track ts trace initSched).cells,
      ∀ c ∈ cell.circles,
        (0 ≤ c.size ∧ c.size ≤ 1) ∧
        (c.hitStatus = none → keepCircle now (advanceCircle now c) = true) ∧
        (keepCircle now (advanceCircle now c) = false →
          (advanceCircle now c).hitStatus ≠ none ∧
          ∃ h : ℤ, (advanceCircle now c).hitTime = some h ∧ now - h ≥ 100) := by
  have hinv : StateTimeInv now (runEvents env track ts trace initSched) := by
    refine runEvents_timeInv env track ts trace initSched
      ((trace.map GEvent.time).foldr min now) (initSched_timeInv _) ?_ hpw now ?_ ?_
    · intro e he
      exact foldr_min_le_mem (trace.map GEvent.time) now (GEvent.time e)
        (List.mem_map_of_mem GEvent.time he)
    · exact hnow
    · exact foldr_min_le_init (trace.map GEvent.time) now
  intro cell hcell c hc
  have hci := hinv cell hcell c hc
  exact ⟨⟨hci.1, hci.2.1⟩, (circle_eviction_char now c hci).1,
    (circle_eviction_char now c hci).2⟩

/-- Witness for reachable_size_invariant: the one-event track run over
a single tick at time 0, inspected at time 500. -/
theorem reachable_size_invariant_witness :
    (List.Pairwise (fun a b => GEvent.time a ≤ GEvent.time b) [GEvent.tick 0] ∧
      ∀ e ∈ [GEvent.tick 0], GEvent.time e ≤ (500 : ℤ)) ∧
    (∀ cell ∈ (runEvents testEnv [⟨3, 0⟩] 0 [GEvent.tick 0] initSched).cells,
      ∀ c ∈ cell.circles,
        (0 ≤ c.size ∧ c.size ≤ 1) ∧
        (c.hitStatus = none → keepCircle 500 (advanceCircle 500 c) = true) ∧
        (keepCircle 500 (advanceCircle 500 c) = false →
          (advanceCircle 500 c).hitStatus ≠ none ∧
          ∃ h : ℤ, (advanceCircle 500 c).hitTime = some h ∧ 500 - h ≥ 100)) :=
  ⟨⟨by decide, by decide⟩,
    reachable_size_invariant testEnv [⟨3, 0⟩] 0 [GEvent.tick 0] (by decide) 500 (by decide)⟩

end Janitor
